import Mathlib

/-!
Verification development for the Vecinito directory-assistant bot
(`src/bot.py`).  The Python source is shallowly embedded: every definition
below mirrors the corresponding Python function or constant, with machine
text modelled as `String` / `List Char`, Python float clock values (always
exact multiples of 1/60 of an hour) rescaled to integer minutes, Python
float scores (always multiples of one half) rescaled to integer half-points,
Python dicts modelled as insertion-ordered association lists, and the
regular-expression
operations of the schedule evaluator modelled as the deterministic scanners
they denote on the pattern alphabet used by the source (letters, digits,
whitespace, dashes).  Character-level Unicode normalisation (lower-casing and
NFKD accent stripping) is modelled for the character set that occurs in the
repository: ASCII plus the Spanish accented letters.
-/

namespace Vecinito

/-- Whitespace characters recognised by Python `str.split`, `str.strip` and
the regex class `\s` on the source's alphabet. -/
def esEspacio (c : Char) : Bool :=
  c = ' ' || c = '\t' || c = '\n' || c = '\r' || c = '\x0b' || c = '\x0c'

/-- Python `str.lower` restricted to the ASCII letters and the Spanish
accented letters used in the repository; every other character is fixed. -/
def minusculaChar (c : Char) : Char :=
  match c with
  | 'A' => 'a' | 'B' => 'b' | 'C' => 'c' | 'D' => 'd' | 'E' => 'e'
  | 'F' => 'f' | 'G' => 'g' | 'H' => 'h' | 'I' => 'i' | 'J' => 'j'
  | 'K' => 'k' | 'L' => 'l' | 'M' => 'm' | 'N' => 'n' | 'O' => 'o'
  | 'P' => 'p' | 'Q' => 'q' | 'R' => 'r' | 'S' => 's' | 'T' => 't'
  | 'U' => 'u' | 'V' => 'v' | 'W' => 'w' | 'X' => 'x' | 'Y' => 'y'
  | 'Z' => 'z' | 'Á' => 'á' | 'É' => 'é' | 'Í' => 'í' | 'Ó' => 'ó'
  | 'Ú' => 'ú' | 'Ñ' => 'ñ' | 'Ü' => 'ü'
  | c => c

/-- NFKD decomposition followed by removal of combining marks, restricted to
the accented letters used in the repository; every other character is
fixed. -/
def quitarAcentoChar (c : Char) : Char :=
  match c with
  | 'á' => 'a' | 'é' => 'e' | 'í' => 'i' | 'ó' => 'o' | 'ú' => 'u'
  | 'ñ' => 'n' | 'ü' => 'u'
  | 'Á' => 'A' | 'É' => 'E' | 'Í' => 'I' | 'Ó' => 'O' | 'Ú' => 'U'
  | 'Ñ' => 'N' | 'Ü' => 'U'
  | c => c

/-- Python `str.strip` on a character list. -/
def recortaL (l : List Char) : List Char :=
  ((l.dropWhile esEspacio).reverse.dropWhile esEspacio).reverse

theorem length_dropWhile_le (p : Char → Bool) (l : List Char) :
    (l.dropWhile p).length ≤ l.length := by
  induction l with
  | nil => simp
  | cons c cs ih =>
    by_cases h : p c
    · simpa [List.dropWhile_cons_of_pos h] using Nat.le_succ_of_le ih
    · simp [List.dropWhile_cons_of_neg h]

/-- Accumulator worker for `palabrasL`; `acc` holds the reversed current
word. -/
def palabrasAux (acc : List Char) : List Char → List (List Char)
  | [] => if acc.isEmpty then [] else [acc.reverse]
  | c :: cs =>
    if esEspacio c then
      if acc.isEmpty then palabrasAux [] cs
      else acc.reverse :: palabrasAux [] cs
    else palabrasAux (c :: acc) cs

/-- Python `str.split()` with no separator: the maximal runs of
non-whitespace characters, in order, with no empty words. -/
def palabrasL (l : List Char) : List (List Char) := palabrasAux [] l

/-- Python substring containment `p in s`. -/
def esSubcadenaL (p : List Char) : List Char → Bool
  | [] => p.isEmpty
  | c :: cs => p.isPrefixOf (c :: cs) || esSubcadenaL p cs

/-- The normalisation `normalizar_texto` of the source: lower-case, strip,
then drop combining accents (NFKD). -/
def normalizarL (l : List Char) : List Char :=
  (recortaL (l.map minusculaChar)).map quitarAcentoChar

/-- The source's `normalizar_texto` on strings. -/
def normalizar_texto (s : String) : String :=
  String.mk (normalizarL s.toList)

/-- Tokens of a text: `normalizar_texto(s).split()` in the source. -/
def tokensDe (s : String) : List String :=
  (palabrasL (normalizarL s.toList)).map String.mk

/-!
Schedule evaluator (`esta_abierto_ahora` and its helpers).  The regex
operations of the source are modelled by the deterministic scanners they
denote: on each pattern the greedy sub-expressions are separated by
disjoint character classes, so the Python regex engine performs no
backtracking beyond the alternative orders made explicit below, and a
left-to-right scan trying every start position reproduces `re.search`,
`re.match`, `re.findall` and `re.sub` exactly.  Scanners recurse on an
explicit fuel initialised to the length of the text; every step consumes
at least one character, so the fuel is never exhausted.
-/

/-- Word characters of the regex class `\w` on the source's alphabet. -/
def esWordChar (c : Char) : Bool :=
  ('a' ≤ c && c ≤ 'z') || ('A' ≤ c && c ≤ 'Z') || ('0' ≤ c && c ≤ '9') ||
  c = '_' || c = 'á' || c = 'é' || c = 'í' || c = 'ó' || c = 'ú' ||
  c = 'ñ' || c = 'ü' || c = 'Á' || c = 'É' || c = 'Í' || c = 'Ó' ||
  c = 'Ú' || c = 'Ñ' || c = 'Ü'

/-- Characters of the day-name regex class `[a-záéíóú]`. -/
def esClaseDia (c : Char) : Bool :=
  ('a' ≤ c && c ≤ 'z') || c = 'á' || c = 'é' || c = 'í' || c = 'ó' || c = 'ú'

/-- Decimal digits, the regex class `\d`. -/
def esDigito (c : Char) : Bool := '0' ≤ c && c ≤ '9'

/-- The dash alternatives `[-–]` of the source's patterns. -/
def esGuion (c : Char) : Bool := c = '-' || c = '–'

/-- Hour separators `[:.]` of the hour-range pattern. -/
def esSepHora (c : Char) : Bool := c = ':' || c = '.'

/-- Splits a run satisfying `p` off the front of a list. -/
def tomaRunL (p : Char → Bool) (l : List Char) : List Char × List Char :=
  (l.takeWhile p, l.dropWhile p)

/-- Splits a character list at every separator satisfying `p`, keeping empty
segments, as Python `re.split` does. -/
def separaEn (p : Char → Bool) : List Char → List (List Char)
  | [] => [[]]
  | c :: cs =>
    if p c then [] :: separaEn p cs
    else
      match separaEn p cs with
      | [] => [[c]]
      | w :: ws => (c :: w) :: ws

/-- Case-insensitive literal prefix test used for the `24hs` pattern. -/
def esPrefijoCI (pat : List Char) (l : List Char) : Bool :=
  pat.isPrefixOf ((l.take pat.length).map minusculaChar)

/-- Match of `24\s*(?:hs|horas?)` anchored at the head of the list
(`re.IGNORECASE`). -/
def coincide24En (l : List Char) : Bool :=
  match l with
  | '2' :: '4' :: resto =>
    let r := resto.dropWhile esEspacio
    esPrefijoCI ['h', 's'] r || esPrefijoCI ['h', 'o', 'r', 'a'] r
  | _ => false

/-- Existence of the `24\s*(?:hs|horas?)` pattern anywhere in the text:
`re.search` with `re.IGNORECASE`. -/
def contiene24hs : List Char → Bool
  | [] => false
  | c :: cs => coincide24En (c :: cs) || contiene24hs cs

/-- Match of `(\w+)\s+a\s+(\w+)` anchored at the head of the list, returning
the two captured words and the rest of the input. -/
def intentaADash (l : List Char) : Option (List Char × List Char × List Char) :=
  let (w1, r1) := tomaRunL esWordChar l
  if w1.isEmpty then none else
  let (s1, r2) := tomaRunL esEspacio r1
  if s1.isEmpty then none else
  match r2 with
  | 'a' :: r3 =>
    let (s2, r4) := tomaRunL esEspacio r3
    if s2.isEmpty then none else
    let (w2, r5) := tomaRunL esWordChar r4
    if w2.isEmpty then none else some (w1, w2, r5)
  | _ => none

/-- Fuelled scan of `re.sub(r"(\w+)\s+a\s+(\w+)", r"\1-\2", ...)`: leftmost
non-overlapping matches are replaced, scanning resumes after each
replacement. -/
def subADashAux : Nat → List Char → List Char
  | 0, l => l
  | _ + 1, [] => []
  | fuel + 1, c :: cs =>
    match intentaADash (c :: cs) with
    | some (w1, w2, resto) => w1 ++ '-' :: (w2 ++ subADashAux fuel resto)
    | none => c :: subADashAux fuel cs

/-- The source's `"X a Y" → "X-Y"` preprocessing of a segment. -/
def subADash (l : List Char) : List Char := subADashAux l.length l

/-- Match of `([a-záéíóú]+)\s*[-–]\s*([a-záéíóú]+)\b` anchored at the head of
the list (the leading `\b` is checked by the caller). -/
def intentaRangoDias (l : List Char) : Option (List Char × List Char) :=
  let (w1, r1) := tomaRunL esClaseDia l
  if w1.isEmpty then none else
  let r2 := r1.dropWhile esEspacio
  match r2 with
  | d :: r3 =>
    if esGuion d then
      let r4 := r3.dropWhile esEspacio
      let (w2, r5) := tomaRunL esClaseDia r4
      if w2.isEmpty then none
      else
        match r5 with
        | [] => some (w1, w2)
        | c :: _ => if esWordChar c then none else some (w1, w2)
    else none
  | [] => none

/-- Fuelled scan of `re.search(r"\b([a-záéíóú]+)\s*[-–]\s*([a-záéíóú]+)\b")`:
tries every start position from the left, tracking whether the previous
character was a word character for the `\b` test. -/
def buscaRangoDiasAux : Nat → Bool → List Char → Option (List Char × List Char)
  | 0, _, _ => none
  | _ + 1, _, [] => none
  | fuel + 1, prevW, c :: cs =>
    match (if !prevW && esClaseDia c then intentaRangoDias (c :: cs) else none) with
    | some r => some r
    | none => buscaRangoDiasAux fuel (esWordChar c) cs

/-- The day-range search of the source. -/
def buscaRangoDias (l : List Char) : Option (List Char × List Char) :=
  buscaRangoDiasAux l.length false l

/-- Match of `re.match(r"([a-záéíóú]+)", ...)`: a day-class run anchored at
position zero. -/
def primeraPalabra (l : List Char) : Option (List Char) :=
  let (w, _) := tomaRunL esClaseDia l
  if w.isEmpty then none else some w

/-- Alternatives of `\d{1,2}(?:[:.]\d{2})?` anchored at the head of the list,
in the regex engine's preference order: two digits with separator part, two
digits, one digit with separator part, one digit.  Each alternative carries
the rest of the input. -/
def altSep (pre : List Char) (r : List Char) : List (List Char × List Char) :=
  match r with
  | s :: e1 :: e2 :: r2 =>
    if esSepHora s && esDigito e1 && esDigito e2 then
      [(pre ++ [s, e1, e2], r2)]
    else []
  | _ => []

def altsNum : List Char → List (List Char × List Char)
  | d1 :: d2 :: resto =>
    if esDigito d1 then
      if esDigito d2 then
        altSep [d1, d2] resto ++ [([d1, d2], resto)] ++
          altSep [d1] (d2 :: resto) ++ [([d1], d2 :: resto)]
      else altSep [d1] (d2 :: resto) ++ [([d1], d2 :: resto)]
    else []
  | [d1] => if esDigito d1 then [([d1], [])] else []
  | [] => []

/-- Match of the hour-range pattern
`(\d{1,2}(?:[:.]\d{2})?)\s*[-–]\s*(\d{1,2}(?:[:.]\d{2})?)` anchored at the
head of the list, trying the alternatives of the first number in preference
order. -/
def intentaRangoHoras (l : List Char) : Option (List Char × List Char × List Char) :=
  (altsNum l).findSome? fun (n1, r1) =>
    match r1.dropWhile esEspacio with
    | d :: r2 =>
      if esGuion d then
        match altsNum (r2.dropWhile esEspacio) with
        | (n2, r3) :: _ => some (n1, n2, r3)
        | [] => none
      else none
    | [] => none

/-- Fuelled scan of `re.findall` for the hour-range pattern: leftmost
non-overlapping matches, scanning resumes after each match. -/
def horasRangosAux : Nat → List Char → List (List Char × List Char)
  | 0, _ => []
  | _ + 1, [] => []
  | fuel + 1, c :: cs =>
    match intentaRangoHoras (c :: cs) with
    | some (n1, n2, resto) => (n1, n2) :: horasRangosAux fuel resto
    | none => horasRangosAux fuel cs

def horasRangos (l : List Char) : List (List Char × List Char) :=
  horasRangosAux l.length l

/-- The day-name and abbreviation table `_DIAS_NOMBRES` of the source. -/
def _DIAS_NOMBRES : List (String × Nat) :=
  [("lunes", 0), ("lun", 0), ("lu", 0),
   ("martes", 1), ("mar", 1), ("ma", 1),
   ("miercoles", 2), ("mie", 2), ("mi", 2),
   ("jueves", 3), ("jue", 3), ("ju", 3),
   ("viernes", 4), ("vie", 4), ("vi", 4),
   ("sabado", 5), ("sab", 5), ("sa", 5),
   ("domingo", 6), ("dom", 6), ("do", 6)]

/-- The single-letter day table `_DIAS_LETRA` of the source. -/
def _DIAS_LETRA : List (Char × Nat) :=
  [('l', 0), ('m', 1), ('x', 2), ('j', 3), ('v', 4), ('s', 5), ('d', 6)]

/-- Python `str.rstrip(".")`. -/
def quitaPuntosFinales (l : List Char) : List Char :=
  (l.reverse.dropWhile (· = '.')).reverse

/-- The source's `_normalizar_dia`: day name or abbreviation to weekday
number (0 = Monday .. 6 = Sunday). -/
def _normalizar_dia (w : List Char) : Option Nat :=
  let s := normalizarL (quitaPuntosFinales (recortaL w))
  match _DIAS_NOMBRES.lookup (String.mk s) with
  | some d => some d
  | none =>
    match s with
    | [c] => _DIAS_LETRA.lookup c
    | _ => none

/-- Digit-string parser: Python `int` on the digit-only tokens produced by
the hour-range pattern (any non-digit input is a parse failure, as the
corresponding Python conversions raise and are caught). -/
def parseDigitos (l : List Char) : Option Nat :=
  if l.isEmpty then none
  else if l.all esDigito then
    some (l.foldl (fun acc c => acc * 10 + (c.toNat - '0'.toNat)) 0)
  else none

/-- The source's `_parsear_hora`: strip, replace `.` by `:`, then either
`HH:MM` as the decimal hours `HH + MM/60` or a bare number in `[0, 24]`;
anything else is `None`.  Every time value of the source is an exact
multiple of 1/60 of an hour, so this development measures time in integer
minutes: the decimal hour `h` of the source is represented as `60 * h`,
an order- and equality-preserving rescaling. -/
def _parsear_hora (t : List Char) : Option Nat :=
  let t1 := (recortaL t).map (fun c => if c = '.' then ':' else c)
  if t1.contains ':' then
    match separaEn (· = ':') t1 with
    | p0 :: p1 :: _ =>
      match parseDigitos p0, parseDigitos p1 with
      | some a, some b => some (60 * a + b)
      | _, _ => none
    | _ => none
  else
    match parseDigitos t1 with
    | some v => if v ≤ 24 then some (60 * v) else none
    | none => none

/-- The source's `_expandir_rango_dias`: an inclusive day range, wrapping
across the week boundary when the end precedes the start. -/
def _expandir_rango_dias (inicio fin : Nat) : List Nat :=
  if inicio ≤ fin then List.range' inicio (fin - inicio + 1)
  else List.range' inicio (7 - inicio) ++ List.range (fin + 1)

/-- An instant as consumed by the evaluator: `ahora.weekday()`
(0 = Monday .. 6 = Sunday) plus hour and minute of day. -/
structure Instante where
  diaSemana : Nat
  hora : Nat
  minuto : Nat
deriving DecidableEq

/-- The current time `ahora.hour + ahora.minute / 60` of the source,
in minutes. -/
def horaActual (t : Instante) : Nat := 60 * t.hora + t.minuto

/-- The per-range test of the source's inner loop: close > open is the
half-open interval `[open, close)`; close < open is the overnight wrap
`≥ open or < close`; close = open is ignored.  All three arguments are in
minutes. -/
def rangoCoincide (apertura cierre horaAct : Nat) : Bool :=
  if cierre > apertura then decide (apertura ≤ horaAct ∧ horaAct < cierre)
  else if cierre < apertura then decide (horaAct ≥ apertura ∨ horaAct < cierre)
  else false

/-- Evaluation of one schedule segment against an instant, following the
source: strip, skip empty and `cerrado` segments, normalise `X a Y`,
resolve the day set (range, then single leading day, then all seven days),
then test every hour range. -/
def segmentoCoincide (t : Instante) (seg0 : List Char) : Bool :=
  let seg := recortaL seg0
  if seg.isEmpty then false
  else
    let segLower := seg.map minusculaChar
    if esSubcadenaL ['c', 'e', 'r', 'r', 'a', 'd', 'o'] segLower then false
    else
      let segProc := subADash segLower
      let diasRango : Option (List Nat) :=
        match buscaRangoDias segProc with
        | some (w1, w2) =>
          match _normalizar_dia w1, _normalizar_dia w2 with
          | some d1, some d2 => some (_expandir_rango_dias d1 d2)
          | _, _ => none
        | none => none
      let diasValidos : List Nat :=
        match diasRango with
        | some ds => ds
        | none =>
          match primeraPalabra segProc with
          | some w =>
            match _normalizar_dia w with
            | some d => [d]
            | none => List.range 7
          | none => List.range 7
      if !diasValidos.contains t.diaSemana then false
      else
        (horasRangos segProc).any fun par =>
          match _parsear_hora par.1, _parsear_hora par.2 with
          | some oh, some ch => rangoCoincide oh ch (horaActual t)
          | _, _ => false

/-- The source's `esta_abierto_ahora`: `none` for blank input,
`some true` for a `24hs` marker or any matching segment, otherwise
`some false`. -/
def esta_abierto_ahora (horario : String) (t : Instante) : Option Bool :=
  let h := recortaL horario.toList
  if h.isEmpty then none
  else if contiene24hs h then some true
  else some ((separaEn (fun c => c = '|' || c = ';' || c = '\n') h).any
    (segmentoCoincide t))

/-!
Synonym expander (`SINONIMOS`, `expandir_consulta`).  The Python dict is
modelled as an association list in the source's literal order; the Python
`set` that collects the added canonical terms is modelled as a duplicate-free
list in first-insertion order (Python's set iteration order is unspecified;
every claim about the expander concerns token sets, which do not depend on
the order chosen).
-/

/-- The synonym table `SINONIMOS` of the source, in literal order. -/
def SINONIMOS : List (String × List String) :=
  [("pizza", ["pizzeria", "pizzería"]),
   ("pizzas", ["pizzeria", "pizzería"]),
   ("fugazzeta", ["pizzeria", "pizzería"]),
   ("muzzarella", ["pizzeria", "pizzería"]),
   ("empanada", ["empanadas", "gastronomia", "gastronomía"]),
   ("empanadas", ["gastronomia", "gastronomía", "pizzeria", "pizzería"]),
   ("hamburguesa", ["hamburgueseria", "hamburguesería", "hamburguesas"]),
   ("hamburguesas", ["hamburgueseria", "hamburguesería"]),
   ("burger", ["hamburgueseria", "hamburguesería", "hamburguesas"]),
   ("sushi", ["sushi", "japones", "japonés", "rolls"]),
   ("rolls", ["sushi", "japones"]),
   ("helado", ["heladeria", "heladería"]),
   ("helados", ["heladeria", "heladería"]),
   ("facturas", ["panaderia", "panadería"]),
   ("pan", ["panaderia", "panadería"]),
   ("medialunas", ["panaderia", "panadería", "cafeteria", "cafetería"]),
   ("torta", ["panaderia", "panadería", "pasteleria"]),
   ("tortas", ["panaderia", "panadería", "pasteleria"]),
   ("cafe", ["cafeteria", "cafetería", "cafe", "café"]),
   ("cafecito", ["cafeteria", "cafetería", "cafe", "café"]),
   ("desayuno", ["cafeteria", "cafetería", "cafe", "café", "brunch"]),
   ("merienda", ["cafeteria", "cafetería", "cafe", "café"]),
   ("brunch", ["cafeteria", "cafetería", "cafe", "café", "brunch"]),
   ("alfajor", ["alfajores", "havanna", "kiosco"]),
   ("alfajores", ["havanna", "kiosco", "chocolate"]),
   ("chocolate", ["havanna", "kiosco", "cafeteria"]),
   ("carne", ["carniceria", "carnicería", "asado"]),
   ("asado", ["carniceria", "carnicería", "parrilla", "restaurante"]),
   ("achuras", ["carniceria", "carnicería"]),
   ("vacio", ["carniceria", "carnicería"]),
   ("pollo", ["carniceria", "carnicería", "granja"]),
   ("verdura", ["verduleria", "verdulería"]),
   ("verduras", ["verduleria", "verdulería"]),
   ("fruta", ["verduleria", "verdulería", "frutas"]),
   ("frutas", ["verduleria", "verdulería"]),
   ("organico", ["verduleria", "verdulería", "organico"]),
   ("comer", ["gastronomia", "gastronomía", "restaurante"]),
   ("comida", ["gastronomia", "gastronomía", "restaurante"]),
   ("cenar", ["gastronomia", "gastronomía", "restaurante"]),
   ("almorzar", ["gastronomia", "gastronomía", "restaurante", "almuerzo"]),
   ("morfi", ["gastronomia", "gastronomía", "restaurante"]),
   ("parrilla", ["parrilla", "restaurante", "asado", "carne"]),
   ("pastas", ["restaurante", "pastas"]),
   ("milanesa", ["restaurante", "milanesas"]),
   ("milanesas", ["restaurante"]),
   ("birra", ["cerveceria", "cervecería", "bar", "cerveza"]),
   ("cerveza", ["cerveceria", "cervecería", "bar", "cerveza artesanal"]),
   ("trago", ["bar", "cerveceria"]),
   ("tragos", ["bar", "cerveceria"]),
   ("picada", ["bar", "cerveceria", "picadas"]),
   ("picadas", ["bar", "cerveceria"]),
   ("remedio", ["farmacia", "medicamentos"]),
   ("remedios", ["farmacia", "medicamentos"]),
   ("medicamento", ["farmacia", "medicamentos"]),
   ("medicamentos", ["farmacia"]),
   ("pastilla", ["farmacia", "medicamentos"]),
   ("pastillas", ["farmacia", "medicamentos"]),
   ("perfumeria", ["farmacia", "farmacity", "cosmeticos"]),
   ("cosmeticos", ["farmacia", "farmacity", "perfumeria"]),
   ("oculista", ["optica", "óptica", "anteojos", "lentes"]),
   ("anteojos", ["optica", "óptica"]),
   ("lentes", ["optica", "óptica"]),
   ("veterinario", ["veterinaria", "mascotas"]),
   ("perro", ["veterinaria", "petshop", "pet shop", "mascotas"]),
   ("gato", ["veterinaria", "petshop", "pet shop", "mascotas"]),
   ("mascota", ["veterinaria", "petshop", "pet shop", "mascotas"]),
   ("mascotas", ["veterinaria", "petshop", "pet shop"]),
   ("alimento", ["petshop", "pet shop", "veterinaria"]),
   ("plomero", ["plomeria", "plomería"]),
   ("caño", ["plomeria", "plomería", "plomero"]),
   ("cañeria", ["plomeria", "plomería", "plomero"]),
   ("agua", ["plomeria", "plomería", "plomero"]),
   ("electricista", ["electricidad", "electrico"]),
   ("enchufe", ["electricidad", "electricista"]),
   ("luz", ["electricidad", "electricista"]),
   ("cortocircuito", ["electricidad", "electricista"]),
   ("albañil", ["albañileria", "albañilería", "construccion"]),
   ("obra", ["albañileria", "albañilería", "construccion"]),
   ("reforma", ["albañileria", "albañilería", "construccion"]),
   ("construccion", ["albañileria", "albañilería"]),
   ("llave", ["cerrajeria", "cerrajería", "cerrajero"]),
   ("cerradura", ["cerrajeria", "cerrajería", "cerrajero"]),
   ("cerrajero", ["cerrajeria", "cerrajería"]),
   ("pintar", ["pintura", "pintor"]),
   ("pintor", ["pintura"]),
   ("pasto", ["jardineria", "jardinería", "jardinero"]),
   ("jardin", ["jardineria", "jardinería", "jardinero"]),
   ("poda", ["jardineria", "jardinería", "jardinero"]),
   ("jardinero", ["jardineria", "jardinería"]),
   ("gas", ["gasista"]),
   ("estufa", ["gasista"]),
   ("calefon", ["gasista", "plomeria"]),
   ("calefaccion", ["gasista"]),
   ("aire", ["aire acondicionado"]),
   ("split", ["aire acondicionado"]),
   ("acondicionado", ["aire acondicionado"]),
   ("mudanza", ["flete", "fletes", "mudanza"]),
   ("mudanzas", ["flete", "fletes"]),
   ("flete", ["fletes", "mudanza"]),
   ("coca", ["kiosco", "bebidas"]),
   ("golosinas", ["kiosco"]),
   ("cigarrillos", ["kiosco"]),
   ("snacks", ["kiosco"]),
   ("galletitas", ["kiosco", "almacen"]),
   ("bebida", ["kiosco", "bebidas"]),
   ("bebidas", ["kiosco"]),
   ("ferreteria", ["ferreteria", "herramientas"]),
   ("herramienta", ["ferreteria", "herramientas"]),
   ("herramientas", ["ferreteria"]),
   ("tornillo", ["ferreteria", "tornillos"]),
   ("tornillos", ["ferreteria"]),
   ("clavo", ["ferreteria"]),
   ("clavos", ["ferreteria"]),
   ("pintura", ["ferreteria", "pintura"]),
   ("materiales", ["ferreteria", "construccion", "corralon"]),
   ("corralon", ["ferreteria", "construccion", "materiales"]),
   ("arena", ["ferreteria", "construccion", "materiales"]),
   ("gimnasio", ["gimnasio", "fitness", "musculacion"]),
   ("gym", ["gimnasio", "fitness", "musculacion"]),
   ("crossfit", ["crossfit", "funcional", "gimnasio"]),
   ("entrenar", ["gimnasio", "fitness", "crossfit"]),
   ("spinning", ["gimnasio", "spinning"]),
   ("yoga", ["gimnasio", "yoga"]),
   ("pileta", ["gimnasio", "pileta", "natacion"]),
   ("natacion", ["gimnasio", "pileta"]),
   ("paddle", ["paddle", "tenis"]),
   ("tenis", ["tenis", "paddle"]),
   ("peluqueria", ["peluqueria", "peluquería", "corte"]),
   ("peluquero", ["peluqueria", "peluquería"]),
   ("corte", ["peluqueria", "peluquería", "barberia", "barbería"]),
   ("tintura", ["peluqueria", "peluquería", "color"]),
   ("barberia", ["barberia", "barbería", "barba"]),
   ("barbero", ["barberia", "barbería", "barba"]),
   ("barba", ["barberia", "barbería"]),
   ("uñas", ["estetica", "estética"]),
   ("depilacion", ["estetica", "estética"]),
   ("lavadero", ["lavadero", "lavanderia"]),
   ("lavanderia", ["lavadero", "lavanderia"]),
   ("lavar", ["lavadero", "lavanderia"]),
   ("auto", ["mecanico", "mecánico", "taller"]),
   ("mecanico", ["mecanico", "mecánico", "taller"]),
   ("rueda", ["gomeria", "gomería"]),
   ("goma", ["gomeria", "gomería"]),
   ("pinchada", ["gomeria", "gomería"]),
   ("nafta", ["estacion de servicio", "ypf", "shell"])]

/-- Python `" ".join(xs)`. -/
def join_espacio : List String → String
  | [] => ""
  | [x] => x
  | x :: xs => x ++ " " ++ join_espacio xs

/-- Adds an element to a duplicate-free list, keeping insertion order: the
model of `set.add`. -/
def agregaUnico (acc : List String) (x : String) : List String :=
  if acc.contains x then acc else acc ++ [x]

/-- The set `extras` built by `expandir_consulta`: for every token of the
normalised query that is a key of `SINONIMOS`, every mapped term,
normalised, deduplicated. -/
def extrasDe (consulta : String) : List String :=
  (tokensDe consulta).foldl (fun acc p =>
    match SINONIMOS.lookup p with
    | some ss => ss.foldl (fun a s => agregaUnico a (normalizar_texto s)) acc
    | none => acc) []

/-- The source's `expandir_consulta`: the original query followed by the
joined extras, or the query unchanged when no token has synonyms. -/
def expandir_consulta (consulta : String) : String :=
  let extras := extrasDe consulta
  if extras.isEmpty then consulta
  else consulta ++ " " ++ join_espacio extras

/-!
Local retrieval filter (`_STOPWORDS`, `_PESO_CAMPO`, `filtrar_json_local`).
Catalog entries are modelled by the fields the filter and the annotator
read (`c.get(campo, "")` yields `""` for a missing field); `id` is the
index assigned at load time (`comp["id"] = i`).  Scores are multiples of
one half (full field weight, or half weight for the partial prefix match),
so they are represented in half-point units: the source score `s` is the
integer `2 * s`, an order- and equality-preserving rescaling.
-/

/-- The stop-word list `_STOPWORDS` of the source. -/
def _STOPWORDS : List String :=
  ["hay", "busco", "quiero", "necesito", "me", "un", "una", "unos", "unas", "en", "de", "que", "por", "para", "los", "las", "el", "la", "lo", "con", "sin", "del", "al", "y", "o", "a", "es", "si", "no", "mas", "muy", "bien", "como", "donde", "cerca", "algun", "alguno", "alguna", "tiene", "tenes", "ahora", "abierto", "abierta", "abiertos", "abiertas", "hoy", "buen", "buenas", "buena", "buenos"]

/-- The field-weight table `_PESO_CAMPO` of the source, in literal order. -/
def _PESO_CAMPO : List (String × Nat) :=
  [("nombre", 4), ("categoria", 3), ("rubro", 3), ("tags", 1), ("zona", 0)]

/-- A catalog entry, restricted to the fields read by the retrieval filter
and the schedule annotator.  `id` is the index assigned at load time
(`comp["id"] = i`); a field missing from the underlying record is the empty
string, exactly as `str(c.get(campo, ""))` yields. -/
structure Comercio where
  id : Nat
  nombre : String
  categoria : String
  rubro : String
  tags : String
  zona : String
  horarios : String
  estado_actual : Option String
deriving DecidableEq

/-- Field access `c.get(campo, "")` for the weighted fields. -/
def obtenCampo (c : Comercio) : String → String
  | "nombre" => c.nombre
  | "categoria" => c.categoria
  | "rubro" => c.rubro
  | "tags" => c.tags
  | "zona" => c.zona
  | _ => ""

/-- Contribution of one query token to one field in half-point units: the
source adds the full weight for a substring match, else half the weight for
a token of length at least 4 that is a prefix of a whitespace-delimited word
of the field, else nothing. -/
def contribucionToken (valor : List Char) (p : List Char) (peso : Nat) : Nat :=
  if esSubcadenaL p valor then 2 * peso
  else if 4 ≤ p.length && (palabrasL valor).any (fun w => p.isPrefixOf w) then peso
  else 0

/-- The field-weighted part of the score of one entry, in half-point
units: fields with an empty normalised value are skipped. -/
def puntajeCampos (palabras : List String) (c : Comercio) : Nat :=
  _PESO_CAMPO.foldl (fun acc par =>
    let valor := normalizarL (obtenCampo c par.1).toList
    if valor.isEmpty then acc
    else palabras.foldl (fun a p => a + contribucionToken valor p.toList par.2) acc) 0

/-- Python truthiness of the optional `zona` argument. -/
def zonaVacia : Option String → Bool
  | none => true
  | some z => z.isEmpty

/-- The flat zone bonus (source constant 5, here 10 half-points), granted
when the requested zone, normalised, is a substring of the entry's
normalised zone. -/
def bonoZona (zona : Option String) (c : Comercio) : Nat :=
  match zona with
  | none => 0
  | some z =>
    if z.isEmpty then 0
    else if esSubcadenaL (normalizarL z.toList) (normalizarL c.zona.toList) then 10
    else 0

/-- The total score of one entry in half-point units. -/
def puntajeComercio (palabras : List String) (zona : Option String) (c : Comercio) : Nat :=
  puntajeCampos palabras c + bonoZona zona c

/-- The usable query tokens of `filtrar_json_local`: tokens of the
synonym-expanded normalised query with stop-words and tokens of length at
most 2 removed, deduplicated (the source builds a Python set; first-insertion
order is the representative chosen here). -/
def palabrasConsulta (consulta : String) : List String :=
  ((tokensDe (expandir_consulta consulta)).filter
    (fun p => !_STOPWORDS.contains p && 2 < p.length)).foldl agregaUnico []

/-- Stable insertion of a scored entry into a descending-sorted list: the new
element goes before the first strictly smaller score, after equal ones it
follows in the recursion, which together with `ordenaDesc` reproduces the
stability of Python's `list.sort(key=..., reverse=True)`. -/
def insertaDesc (x : Nat × Comercio) : List (Nat × Comercio) → List (Nat × Comercio)
  | [] => [x]
  | y :: ys => if y.1 ≤ x.1 then x :: y :: ys else y :: insertaDesc x ys

/-- Stable descending sort by score: the model of
`scored.sort(key=lambda x: x[0], reverse=True)`. -/
def ordenaDesc : List (Nat × Comercio) → List (Nat × Comercio)
  | [] => []
  | x :: xs => insertaDesc x (ordenaDesc xs)

/-- The source's `filtrar_json_local`, parametrised by the catalog list
(`COMERCIOS_COMPACTO` in the source): score every entry, keep the positive
ones in catalog order, sort stably by descending score and return the first
`top_k` entries. -/
def filtrar_json_local (catalogo : List Comercio) (consulta : String)
    (zona : Option String) (top_k : Nat) : List Comercio :=
  let palabras := palabrasConsulta consulta
  if palabras.isEmpty && zonaVacia zona then []
  else
    let scored := (catalogo.filter
      (fun c => decide (0 < puntajeComercio palabras zona c))).map
      (fun c => (puntajeComercio palabras zona c, c))
    ((ordenaDesc scored).take top_k).map (fun par => par.2)

/-!
Schedule annotation (`inyectar_estado_horario`) and its effect on the
catalog.  The Python function mutates the result dicts in place
(`c["estado_actual"] = ...`); on the local-fallback path of
`obtener_respuesta` those dicts are the very entries of the in-memory
catalog `COMERCIOS_COMPACTO`, so the mutation is visible in the catalog
afterwards.  `catalogoTrasConsulta` makes that aliasing explicit: it maps
every catalog entry whose `id` occurs among the returned entries to its
annotated version.
-/

/-- Annotation of one entry, following `inyectar_estado_horario`: entries
with an empty schedule are skipped, an indeterminate evaluation leaves the
field as it was, and a determinate one overwrites it. -/
def anotarEstado (t : Instante) (c : Comercio) : Comercio :=
  if c.horarios.isEmpty then c
  else
    match esta_abierto_ahora c.horarios t with
    | some true => { c with estado_actual := some "ABIERTO AHORA ✅" }
    | some false => { c with estado_actual := some "CERRADO AHORA ❌" }
    | none => c

/-- The source's `inyectar_estado_horario` on a result list. -/
def inyectar_estado_horario (cs : List Comercio) (t : Instante) : List Comercio :=
  cs.map (anotarEstado t)

/-- The in-memory catalog after one query on the local-fallback path of
`obtener_respuesta` (no stored location): the entries returned by
`filtrar_json_local` are annotated in place by `inyectar_estado_horario`,
every other entry keeps its value. -/
def catalogoTrasConsulta (catalogo : List Comercio) (consulta : String)
    (zona : Option String) (top_k : Nat) (t : Instante) : List Comercio :=
  let ids := (filtrar_json_local catalogo consulta zona top_k).map (fun c => c.id)
  catalogo.map (fun c => if ids.contains c.id then anotarEstado t c else c)

/-!
Response cache (`obtener_respuesta`, store and eviction).  The Python dict
`cache_respuestas_usuario` is modelled as an association list in insertion
order (updating an existing key keeps its position, as in a Python dict);
`datetime` timestamps are modelled as integer epoch seconds, which
`datetime` comparison order embeds into.  `min(cache, key=timestamp)`
returns the first key in iteration order attaining the minimal timestamp;
the eviction loop runs while the size exceeds the capacity.
-/

/-- One cache entry `{"respuesta": ..., "timestamp": ...}`. -/
structure EntradaCache where
  respuesta : String
  timestamp : Int
deriving DecidableEq

/-- The source's capacity constant `MAX_CACHE_RESPUESTAS`. -/
def MAX_CACHE_RESPUESTAS : Nat := 1000

/-- Dict insertion `cache[key] = value`: overwrite in place if the key
exists, else append. -/
def ponDict (cache : List (String × EntradaCache)) (k : String)
    (v : EntradaCache) : List (String × EntradaCache) :=
  if cache.any (fun p => p.1 == k) then
    cache.map (fun p => if p.1 == k then (k, v) else p)
  else cache ++ [(k, v)]

/-- Removes the first element carrying the given timestamp. -/
def borraPrimeroTs (m : Int) : List (String × EntradaCache) → List (String × EntradaCache)
  | [] => []
  | p :: ps => if p.2.timestamp = m then ps else p :: borraPrimeroTs m ps

/-- Deletion of `min(cache_activo, key=lambda k: cache_activo[k]["timestamp"])`:
removes the first entry attaining the minimal timestamp. -/
def quitarMasVieja : List (String × EntradaCache) → List (String × EntradaCache)
  | [] => []
  | x :: xs =>
    borraPrimeroTs (xs.foldl (fun acc p => min acc p.2.timestamp) x.2.timestamp) (x :: xs)

/-- Fuelled eviction loop `while len(cache_activo) > MAX_CACHE_RESPUESTAS`;
every iteration removes one entry, so fuel equal to the length is never
exhausted. -/
def evictaExcesoAux : Nat → Nat → List (String × EntradaCache) → List (String × EntradaCache)
  | 0, _, cache => cache
  | fuel + 1, cap, cache =>
    if cache.length ≤ cap then cache
    else evictaExcesoAux fuel cap (quitarMasVieja cache)

def evictaExceso (cap : Nat) (cache : List (String × EntradaCache)) :
    List (String × EntradaCache) :=
  evictaExcesoAux cache.length cap cache

/-- The store step of `obtener_respuesta`: insert or overwrite under the
current timestamp, then evict the globally oldest entry while the cache
exceeds its capacity. -/
def almacenarRespuesta (cap : Nat) (cache : List (String × EntradaCache))
    (k : String) (resp : String) (ts : Int) : List (String × EntradaCache) :=
  evictaExceso cap (ponDict cache k ⟨resp, ts⟩)

/-!
Debounce coalescer (`agregar_mensaje_a_cola`, `_esperar_y_procesar`).  The
per-user buffer, its generation counter and the deferred flush tasks are
modelled as a transition system: an `enq` event is one locked execution of
`agregar_mensaje_a_cola` (append, bump the generation, schedule a flush task
tagged with the new generation), a `fire g` event is the locked body of
`_esperar_y_procesar` for the task tagged `g` after its debounce sleep.
The single global lock of the source makes each event atomic, so every
execution is some interleaving of these events.  The stored transport
handle (`update`), always the latest non-`None` one, is elided: the flush
guard `if not mensajes or not update` reduces to the emptiness test on the
message list. -/

/-- One user's buffer entry in `cola_mensajes`. -/
structure ColaEntrada where
  mensajes : List String
  generation : Nat
deriving DecidableEq

inductive EventoCola where
  | enq (msg : String)
  | fire (gen : Nat)
deriving DecidableEq

/-- The coalescer state for one user: the optional buffer (deleted on
flush, as `del cola_mensajes[user_id]`) and the merged queries handed to
the downstream pipeline, in order. -/
structure SistemaCola where
  cola : Option ColaEntrada
  flushes : List String
deriving DecidableEq

/-- The merge policy of `_esperar_y_procesar` (plain space join, FIX v5). -/
def unirMensajes (ms : List String) : String :=
  match ms with
  | [m] => m
  | _ => join_espacio ms

/-- One atomic event of the coalescer. -/
def pasoCola (s : SistemaCola) : EventoCola → SistemaCola
  | .enq m =>
    let e := s.cola.getD ⟨[], 0⟩
    { s with cola := some ⟨e.mensajes ++ [m], e.generation + 1⟩ }
  | .fire g =>
    match s.cola with
    | some e =>
      if e.generation = g then
        if e.mensajes.isEmpty then { cola := none, flushes := s.flushes }
        else { cola := none, flushes := s.flushes ++ [unirMensajes e.mensajes] }
      else s
    | none => s

/-- Runs a sequence of coalescer events. -/
def correrCola (es : List EventoCola) (s : SistemaCola) : SistemaCola :=
  es.foldl pasoCola s

/-!
Embedding cache (`LRUDict`, `obtener_embedding`).  `LRUDict.__setitem__`
moves an existing key to the most-recent end, stores the value there, then
pops from the least-recent end while the size exceeds the bound;
`obtener_embedding` looks the MD5 key up and only calls the external
embedding service on a miss.  The dict is an association list whose head is
the least recently inserted binding; keys are unique in every state the
program produces.  The function is parametrised by the key derivation
(`hashlib.md5(texto.encode()).hexdigest()` in the source) and by the vector
the external service would return. -/

/-- The source's capacity constant `MAX_CACHE_EMBEDDINGS`. -/
def MAX_CACHE_EMBEDDINGS : Nat := 2000

/-- `LRUDict.__setitem__`: move-to-end plus store, then evict from the old
end while over the bound. -/
def lruPon {A : Type} (maxSize : Nat) (cache : List (String × A)) (k : String)
    (v : A) : List (String × A) :=
  let c1 := cache.filter (fun p => !(p.1 == k)) ++ [(k, v)]
  c1.drop (c1.length - maxSize)

/-- The source's `obtener_embedding`: returns the embedding, the cache
afterwards, and whether an external embedding call was issued. -/
def obtener_embedding {A : Type} (hash : String → String)
    (cache : List (String × A)) (texto : String) (apiEmb : A) :
    A × List (String × A) × Bool :=
  let key := hash texto
  match cache.lookup key with
  | some v => (v, cache, false)
  | none => (apiEmb, lruPon MAX_CACHE_EMBEDDINGS cache key apiEmb, true)

/-!
Per-user message history (`obtener_respuesta`, history maintenance).  A
stored message carries role, content and an ISO timestamp string; the
timestamp is modelled as integer epoch seconds, which the string order of
`isoformat`/`fromisoformat` embeds into.  One completed turn appends the
user message, filters the history to the one-hour window, trims to the last
`MAX_HISTORIAL_MENSAJES` messages, saves, and finally appends the assistant
reply (timestamped at the turn's start) and saves again; the list returned
by `historialTrasTurno` is the history stored after the final save. -/

structure MensajeHist where
  role : String
  content : String
  timestamp : Int
deriving DecidableEq

/-- The source's bound `MAX_HISTORIAL_MENSAJES`. -/
def MAX_HISTORIAL_MENSAJES : Nat := 10

/-- The count trim `historial_rec[-MAX_HISTORIAL_MENSAJES:]` applied when
the list exceeds the bound. -/
def recortaCuenta (l : List MensajeHist) : List MensajeHist :=
  if MAX_HISTORIAL_MENSAJES < l.length then
    l.drop (l.length - MAX_HISTORIAL_MENSAJES)
  else l

/-- The window-filter and count-trim step of `obtener_respuesta` after the
user message is appended. -/
def recorteHistorial (historial : List MensajeHist) (ahora : Int)
    (mensaje : String) : List MensajeHist :=
  recortaCuenta ((historial ++ [(⟨"user", mensaje, ahora⟩ : MensajeHist)]).filter
    (fun m => decide (ahora - 3600 < m.timestamp)))

/-- The history stored after a completed turn. -/
def historialTrasTurno (historial : List MensajeHist) (ahora : Int)
    (mensaje respuesta : String) : List MensajeHist :=
  recorteHistorial historial ahora mensaje ++ [⟨"assistant", respuesta, ahora⟩]

/-!
Claims about the schedule evaluator (C1, C8, C4).
-/

/-- Claim C1, counterexample: the claim asserts that for the schedule string
"Mon-Fri 8-20" the evaluator returns closed at Saturday 10:00; in fact the
English day tokens are not in the evaluator's Spanish day table, so the
day-range resolution fails, the segment is applied to all seven days, and
Saturday 10:00 falls inside 8-20: the evaluator returns open. -/
theorem claim_C1_counterexample :
    esta_abierto_ahora "Mon-Fri 8-20" ⟨5, 10, 0⟩ = some true := by decide

/-- Claim C1, amended: for the Spanish schedule string "Lun-Vie 8-20" the
evaluator returns open at Wednesday 19:59, closed at Wednesday 20:00 and
closed at Saturday 10:00; and in general a range with close > open matches
exactly when the current time lies in the half-open interval
[open, close) (times in minutes). -/
theorem claim_C1 :
    esta_abierto_ahora "Lun-Vie 8-20" ⟨2, 19, 59⟩ = some true ∧
    esta_abierto_ahora "Lun-Vie 8-20" ⟨2, 20, 0⟩ = some false ∧
    esta_abierto_ahora "Lun-Vie 8-20" ⟨5, 10, 0⟩ = some false ∧
    ∀ apertura cierre horaAct : Nat, apertura < cierre →
      (rangoCoincide apertura cierre horaAct = true ↔
        apertura ≤ horaAct ∧ horaAct < cierre) := by
  refine ⟨by decide, by decide, by decide, ?_⟩
  intro a c h hac
  simp [rangoCoincide, hac]

/-- Witness for the hypotheses of `claim_C1`: the interval condition at
8:00-20:00 and 10:00 (in minutes). -/
theorem claim_C1_witness :
    rangoCoincide 480 1200 600 = true ↔ 480 ≤ 600 ∧ 600 < 1200 :=
  claim_C1.2.2.2 480 1200 600 (by decide)

/-- Claim C8: for the overnight schedule "22-6" the evaluator returns open
at 23:00 and 02:00 and closed at 12:00 on every weekday, and in general a
range with close < open matches exactly when the current time is at least
the opening time or before the closing time (times in minutes). -/
theorem claim_C8 :
    (∀ d : Nat, d < 7 →
      esta_abierto_ahora "22-6" ⟨d, 23, 0⟩ = some true ∧
      esta_abierto_ahora "22-6" ⟨d, 2, 0⟩ = some true ∧
      esta_abierto_ahora "22-6" ⟨d, 12, 0⟩ = some false) ∧
    ∀ apertura cierre horaAct : Nat, cierre < apertura →
      (rangoCoincide apertura cierre horaAct = true ↔
        apertura ≤ horaAct ∨ horaAct < cierre) := by
  constructor
  · decide
  · intro a c h hca
    have : ¬ a < c := by omega
    simp [rangoCoincide, hca, this]

/-- Witness for the hypotheses of `claim_C8`: Wednesday instances of the
three instants, and the overnight condition at 22:00-6:00 and 23:00
(in minutes). -/
theorem claim_C8_witness :
    esta_abierto_ahora "22-6" ⟨2, 23, 0⟩ = some true ∧
    (rangoCoincide 1320 360 1380 = true ↔ 1320 ≤ 1380 ∨ 1380 < 360) :=
  ⟨(claim_C8.1 2 (by decide)).1, claim_C8.2 1320 360 1380 (by decide)⟩

/-- Claim C4, counterexample: the claim asserts that unparseable schedule
text is resolved to the indeterminate result; in fact the evaluator, after
finding no day information and no hour ranges in "asdf", falls through to
closed (`False`), not indeterminate (`None`). -/
theorem claim_C4_counterexample :
    esta_abierto_ahora "asdf" ⟨2, 12, 0⟩ = some false := by decide

/-- Claim C4, amended: the evaluator is a total function (it never raises
to the caller); blank input is resolved to the indeterminate result; but
malformed input is resolved locally to closed, not indeterminate:
unparseable schedule text ("asdf") and an out-of-range hour token
("lun-vie 99-20", whose hour 99 fails the 0..24 bound of `_parsear_hora`
and is skipped) both yield closed. -/
theorem claim_C4 :
    (∀ (s : String) (t : Instante),
      (recortaL s.toList).isEmpty = true → esta_abierto_ahora s t = none) ∧
    esta_abierto_ahora "asdf" ⟨2, 12, 0⟩ = some false ∧
    esta_abierto_ahora "lun-vie 99-20" ⟨2, 12, 0⟩ = some false ∧
    _parsear_hora ['9', '9'] = none := by
  refine ⟨?_, by decide, by decide, by decide⟩
  intro s t h
  have h2 : recortaL s.data = [] := by simpa [String.toList] using h
  simp [esta_abierto_ahora, String.toList, h2]

/-- Witness for the hypotheses of `claim_C4`: the whitespace-only schedule
string is blank, hence indeterminate. -/
theorem claim_C4_witness :
    esta_abierto_ahora "   " ⟨0, 0, 0⟩ = none :=
  claim_C4.1 "   " ⟨0, 0, 0⟩ (by decide)

/-!
Claim about the debounce coalescer (C2).
-/

theorem correrCola_append (es fs : List EventoCola) (s : SistemaCola) :
    correrCola (es ++ fs) s = correrCola fs (correrCola es s) :=
  List.foldl_append ..

theorem correrCola_enqs (ms : List String) (acc : List String) (g : Nat)
    (fl : List String) :
    correrCola (ms.map EventoCola.enq) ⟨some ⟨acc, g⟩, fl⟩ =
      ⟨some ⟨acc ++ ms, g + ms.length⟩, fl⟩ := by
  induction ms generalizing acc g with
  | nil => simp [correrCola]
  | cons m ms ih =>
    have paso : pasoCola ⟨some ⟨acc, g⟩, fl⟩ (.enq m) =
        ⟨some ⟨acc ++ [m], g + 1⟩, fl⟩ := rfl
    calc correrCola ((m :: ms).map EventoCola.enq) ⟨some ⟨acc, g⟩, fl⟩
        = correrCola (ms.map EventoCola.enq) ⟨some ⟨acc ++ [m], g + 1⟩, fl⟩ := by
          simp [correrCola, paso]
      _ = ⟨some ⟨acc ++ m :: ms, g + (ms.length + 1)⟩, fl⟩ := by
          rw [ih]; simp; omega

theorem correrCola_fires_stale (gs : List Nat) (e : ColaEntrada)
    (fl : List String) (h : ∀ g ∈ gs, g ≠ e.generation) :
    correrCola (gs.map EventoCola.fire) ⟨some e, fl⟩ = ⟨some e, fl⟩ := by
  induction gs with
  | nil => rfl
  | cons g gs ih =>
    have hg : e.generation ≠ g := fun hh => h g (by simp) hh.symm
    have paso : pasoCola ⟨some e, fl⟩ (.fire g) = ⟨some e, fl⟩ := by
      simp [pasoCola, hg]
    simp only [List.map_cons, correrCola, List.foldl_cons]
    rw [show pasoCola ⟨some e, fl⟩ (EventoCola.fire g) = ⟨some e, fl⟩ from paso]
    exact ih (fun g hgm => h g (by simp [hgm]))

/-- Claim C2: for a burst of enqueues whose deferred flushes all fire after
the last enqueue (the debounce window absorbed the whole burst), exactly one
downstream flush is produced, carrying all buffered messages joined in
submission order; a deferred flush whose captured generation differs from
the buffer's current generation is a no-op; and an enqueue arriving after
the settled burst produces a second, independent flush. -/
theorem claim_C2 (msgs : List String) (hne : msgs ≠ []) (m2 : String) :
    (correrCola (msgs.map EventoCola.enq ++
        (List.range msgs.length).map (fun i => EventoCola.fire (i + 1)))
      ⟨none, []⟩) = ⟨none, [unirMensajes msgs]⟩ ∧
    (correrCola ((msgs.map EventoCola.enq ++
        (List.range msgs.length).map (fun i => EventoCola.fire (i + 1))) ++
        [EventoCola.enq m2, EventoCola.fire 1])
      ⟨none, []⟩).flushes = [unirMensajes msgs, m2] ∧
    (∀ (s : SistemaCola) (g : Nat),
      (∀ e, s.cola = some e → e.generation ≠ g) → pasoCola s (.fire g) = s) := by
  obtain ⟨m, ms, rfl⟩ : ∃ m ms, msgs = m :: ms := by
    cases msgs with
    | nil => exact absurd rfl hne
    | cons m ms => exact ⟨m, ms, rfl⟩
  have burst : correrCola ((m :: ms).map EventoCola.enq ++
        (List.range (m :: ms).length).map (fun i => EventoCola.fire (i + 1)))
      ⟨none, []⟩ = ⟨none, [unirMensajes (m :: ms)]⟩ := by
    rw [correrCola_append]
    have enqs : correrCola ((m :: ms).map EventoCola.enq) ⟨none, []⟩ =
        ⟨some ⟨m :: ms, ms.length + 1⟩, []⟩ := by
      have paso : pasoCola ⟨none, []⟩ (.enq m) = ⟨some ⟨[m], 1⟩, []⟩ := rfl
      simp only [List.map_cons, correrCola, List.foldl_cons]
      rw [show pasoCola ⟨none, []⟩ (EventoCola.enq m) = ⟨some ⟨[m], 1⟩, []⟩ from paso]
      have := correrCola_enqs ms [m] 1 ([] : List String)
      simpa [correrCola, Nat.add_comm] using this
    rw [enqs]
    have hrange : List.range (m :: ms).length =
        List.range ms.length ++ [ms.length] := by
      simp [List.range_succ]
    rw [hrange, List.map_append, correrCola_append]
    have stale : correrCola ((List.range ms.length).map
          (fun i => EventoCola.fire (i + 1))) ⟨some ⟨m :: ms, ms.length + 1⟩, []⟩ =
        ⟨some ⟨m :: ms, ms.length + 1⟩, []⟩ := by
      have : ∀ g ∈ (List.range ms.length).map (fun i => i + 1),
          g ≠ (⟨m :: ms, ms.length + 1⟩ : ColaEntrada).generation := by
        intro g hg
        simp only [List.mem_map, List.mem_range] at hg
        obtain ⟨i, hi, rfl⟩ := hg
        simp
        omega
      have := correrCola_fires_stale ((List.range ms.length).map (fun i => i + 1))
        ⟨m :: ms, ms.length + 1⟩ [] this
      simpa [List.map_map, Function.comp] using this
    rw [stale]
    have final : pasoCola ⟨some ⟨m :: ms, ms.length + 1⟩, []⟩
        (.fire (ms.length + 1)) = ⟨none, [unirMensajes (m :: ms)]⟩ := by
      simp [pasoCola]
    simpa [correrCola] using final
  refine ⟨burst, ?_, ?_⟩
  · rw [correrCola_append, burst]
    have paso1 : pasoCola ⟨none, [unirMensajes (m :: ms)]⟩ (.enq m2) =
        ⟨some ⟨[m2], 1⟩, [unirMensajes (m :: ms)]⟩ := rfl
    have paso2 : pasoCola ⟨some ⟨[m2], 1⟩, [unirMensajes (m :: ms)]⟩ (.fire 1) =
        ⟨none, [unirMensajes (m :: ms), m2]⟩ := by
      simp [pasoCola, unirMensajes]
    simp [correrCola, paso1, paso2]
  · intro s g h
    match hc : s.cola with
    | none => simp [pasoCola, hc]
    | some e =>
      have := h e hc
      simp [pasoCola, hc, this]

/-- Witness for the hypotheses of `claim_C2`: a three-message burst flushes
once as "hola quiero una birra"-style joined text, and a fourth message
after the window flushes separately. -/
theorem claim_C2_witness :
    (correrCola (["quiero", "una", "birra"].map EventoCola.enq ++
        (List.range 3).map (fun i => EventoCola.fire (i + 1)))
      ⟨none, []⟩) = ⟨none, [unirMensajes ["quiero", "una", "birra"]]⟩ :=
  (claim_C2 ["quiero", "una", "birra"] (by simp) "gracias").1

/-!
Claim about the response cache (C3).
-/

theorem evictaAux_id (fuel cap : Nat) (m : List (String × EntradaCache))
    (h : m.length ≤ cap) : evictaExcesoAux fuel cap m = m := by
  cases fuel <;> simp [evictaExcesoAux, h]

theorem foldl_min_mem (xs : List (String × EntradaCache)) (a : Int) :
    xs.foldl (fun acc p => min acc p.2.timestamp) a = a ∨
    ∃ p ∈ xs, xs.foldl (fun acc p => min acc p.2.timestamp) a = p.2.timestamp := by
  induction xs generalizing a with
  | nil => exact Or.inl rfl
  | cons x xs ih =>
    rcases ih (min a x.2.timestamp) with h | h
    · rcases min_cases a x.2.timestamp with ⟨he, _⟩ | ⟨he, _⟩
      · exact Or.inl (by simpa [he] using h)
      · refine Or.inr ⟨x, by simp, ?_⟩
        simpa [he] using h
    · obtain ⟨p, hp, he⟩ := h
      exact Or.inr ⟨p, by simp [hp], he⟩

theorem borraPrimeroTs_length (m : Int) (l : List (String × EntradaCache))
    (h : ∃ p ∈ l, p.2.timestamp = m) :
    (borraPrimeroTs m l).length + 1 = l.length := by
  induction l with
  | nil => simp at h
  | cons x xs ih =>
    by_cases hx : x.2.timestamp = m
    · simp [borraPrimeroTs, hx]
    · obtain ⟨p, hp, hpm⟩ := h
      rcases List.mem_cons.mp hp with rfl | hp2
      · exact absurd hpm hx
      · simp only [borraPrimeroTs, if_neg hx, List.length_cons]
        rw [← ih ⟨p, hp2, hpm⟩]

theorem quitarMasVieja_length (l : List (String × EntradaCache)) (h : l ≠ []) :
    (quitarMasVieja l).length + 1 = l.length := by
  match l with
  | [] => exact absurd rfl h
  | x :: xs =>
    unfold quitarMasVieja
    apply borraPrimeroTs_length
    rcases foldl_min_mem xs x.2.timestamp with he | ⟨p, hp, he⟩
    · exact ⟨x, by simp, he.symm⟩
    · exact ⟨p, by simp [hp], he.symm⟩

theorem evictaAux_length (fuel cap : Nat) :
    ∀ cache : List (String × EntradaCache), cache.length ≤ fuel →
    (evictaExcesoAux fuel cap cache).length ≤ cap := by
  induction fuel with
  | zero =>
    intro cache h
    have : cache = [] := List.length_eq_zero.mp (Nat.le_zero.mp h)
    subst this
    simp [evictaExcesoAux]
  | succ fuel ih =>
    intro cache h
    by_cases hc : cache.length ≤ cap
    · simp only [evictaExcesoAux, if_pos hc]
      exact hc
    · have hne : cache ≠ [] := by
        intro hnil; subst hnil; simp at hc
      have hq := quitarMasVieja_length cache hne
      simp only [evictaExcesoAux, if_neg hc]
      exact ih _ (by omega)

theorem almacenar_length (cap : Nat) (cache : List (String × EntradaCache))
    (k resp : String) (ts : Int) :
    (almacenarRespuesta cap cache k resp ts).length ≤ cap :=
  evictaAux_length _ _ _ le_rfl

theorem ponDict_fresh (cache : List (String × EntradaCache)) (k : String)
    (v : EntradaCache) (h : ∀ p ∈ cache, p.1 ≠ k) :
    ponDict cache k v = cache ++ [(k, v)] := by
  unfold ponDict
  have hany : cache.any (fun p => p.1 == k) = false := by
    simp only [List.any_eq_false]
    intro p hp
    simpa using h p hp
  simp [hany]

theorem evictaExceso_id (cap : Nat) (cache : List (String × EntradaCache))
    (h : cache.length ≤ cap) : evictaExceso cap cache = cache :=
  evictaAux_id _ _ _ h

theorem almacenar_fresh (cap : Nat) (cache : List (String × EntradaCache))
    (k resp : String) (ts : Int) (hfresh : ∀ p ∈ cache, p.1 ≠ k)
    (hlen : cache.length < cap) :
    almacenarRespuesta cap cache k resp ts = cache ++ [(k, ⟨resp, ts⟩)] := by
  unfold almacenarRespuesta
  rw [ponDict_fresh _ _ _ hfresh]
  exact evictaExceso_id _ _ (by simp; omega)

theorem fold_almacenar_fresh (cap : Nat) :
    ∀ (xs cache : List (String × EntradaCache)),
    (∀ p ∈ cache, ∀ q ∈ xs, p.1 ≠ q.1) →
    (xs.map Prod.fst).Nodup →
    cache.length + xs.length ≤ cap →
    xs.foldl (fun ch e => almacenarRespuesta cap ch e.1 e.2.respuesta e.2.timestamp)
      cache = cache ++ xs := by
  intro xs
  induction xs with
  | nil => intro cache _ _ _; simp
  | cons x xs ih =>
    intro cache hdisj hnodup hlen
    have paso : almacenarRespuesta cap cache x.1 x.2.respuesta x.2.timestamp =
        cache ++ [x] := by
      have := almacenar_fresh cap cache x.1 x.2.respuesta x.2.timestamp
        (fun p hp => hdisj p hp x (by simp)) (by simp at hlen; omega)
      simpa using this
    simp only [List.foldl_cons, paso]
    rw [ih (cache ++ [x]) ?_ ?_ ?_]
    · simp
    · intro p hp q hq
      rcases List.mem_append.mp hp with hp2 | hp2
      · exact hdisj p hp2 q (by simp [hq])
      · have hx : p = x := by simpa using hp2
        subst hx
        simp only [List.map_cons, List.nodup_cons] at hnodup
        intro he
        exact hnodup.1 (he ▸ List.mem_map_of_mem Prod.fst hq)
    · simpa using hnodup.of_cons
    · simp at hlen ⊢; omega

theorem foldl_min_ge (xs : List (String × EntradaCache)) (a : Int)
    (h : ∀ p ∈ xs, a ≤ p.2.timestamp) :
    xs.foldl (fun acc p => min acc p.2.timestamp) a = a := by
  induction xs with
  | nil => rfl
  | cons x xs ih =>
    have hmin : min a x.2.timestamp = a := min_eq_left (h x (by simp))
    simp only [List.foldl_cons, hmin]
    exact ih (fun p hp => h p (by simp [hp]))

theorem quitarMasVieja_cons (x : String × EntradaCache)
    (xs : List (String × EntradaCache))
    (h : ∀ p ∈ xs, x.2.timestamp < p.2.timestamp) :
    quitarMasVieja (x :: xs) = xs := by
  show borraPrimeroTs
    (xs.foldl (fun acc p => min acc p.2.timestamp) x.2.timestamp) (x :: xs) = xs
  rw [foldl_min_ge xs x.2.timestamp (fun p hp => le_of_lt (h p hp))]
  simp [borraPrimeroTs]

theorem evictaExceso_cap_succ (cap : Nat) (l : List (String × EntradaCache))
    (h : l.length = cap + 1) :
    evictaExceso cap l = quitarMasVieja l := by
  unfold evictaExceso
  rw [h]
  have hno : ¬ l.length ≤ cap := by omega
  have hq := quitarMasVieja_length l (by intro hnil; subst hnil; simp at h)
  simp only [evictaExcesoAux, if_neg hno]
  exact evictaAux_id _ _ _ (by omega)

/-- Claim C3: a store inserts or overwrites under the current timestamp and
then evicts the globally oldest entry by timestamp while the cache exceeds
its capacity; hence after every store the cache holds at most `cap`
entries, and storing `cap + 1` distinct keys with increasing timestamps
into an empty cache leaves exactly the last `cap` entries, the single
oldest-by-timestamp entry (the first stored) being absent. -/
theorem claim_C3 (cap : Nat) (xs : List (String × EntradaCache))
    (hlen : xs.length = cap + 1)
    (hkeys : (xs.map Prod.fst).Nodup)
    (hts : xs.Pairwise (fun p q => p.2.timestamp < q.2.timestamp)) :
    (∀ (cache : List (String × EntradaCache)) (k resp : String) (ts : Int),
      (almacenarRespuesta cap cache k resp ts).length ≤ cap) ∧
    xs.foldl (fun ch e => almacenarRespuesta cap ch e.1 e.2.respuesta e.2.timestamp)
      [] = xs.tail ∧
    ∀ p ∈ xs.foldl (fun ch e => almacenarRespuesta cap ch e.1 e.2.respuesta e.2.timestamp) [],
      ∀ q ∈ xs.head?, p.1 ≠ q.1 := by
  have hne : xs ≠ [] := by intro hnil; subst hnil; simp at hlen
  obtain ⟨y, ys, rfl⟩ : ∃ y ys, xs = y :: ys := by
    cases xs with
    | nil => exact absurd rfl hne
    | cons y ys => exact ⟨y, ys, rfl⟩
  set xs := y :: ys with hxs
  have hsplit := List.dropLast_append_getLast (l := xs) hne
  have hfront_len : xs.dropLast.length = cap := by
    have := List.length_dropLast xs
    omega
  have hfold : xs.foldl
      (fun ch e => almacenarRespuesta cap ch e.1 e.2.respuesta e.2.timestamp) [] =
      xs.tail := by
    conv_lhs => rw [← hsplit]
    rw [List.foldl_append]
    have hfront : xs.dropLast.foldl
        (fun ch e => almacenarRespuesta cap ch e.1 e.2.respuesta e.2.timestamp) [] =
        xs.dropLast := by
      have hnodup_front : (xs.dropLast.map Prod.fst).Nodup := by
        apply List.Nodup.sublist _ hkeys
        exact (List.dropLast_sublist xs).map Prod.fst
      have := fold_almacenar_fresh cap xs.dropLast [] (by simp) hnodup_front
        (by simpa using hfront_len.le)
      simpa using this
    rw [hfront]
    have z := xs.getLast hne
    simp only [List.foldl_cons, List.foldl_nil]
    have hfreshz : ∀ p ∈ xs.dropLast, p.1 ≠ (xs.getLast hne).1 := by
      intro p hp he
      have hsub : (xs.dropLast.map Prod.fst ++ [(xs.getLast hne).1]) = xs.map Prod.fst := by
        have := congrArg (List.map Prod.fst) hsplit
        simpa using this
      have hnodup2 : (xs.dropLast.map Prod.fst ++ [(xs.getLast hne).1]).Nodup := by
        rw [hsub]; exact hkeys
      rcases List.nodup_append.mp hnodup2 with ⟨_, _, hdisj⟩
      exact hdisj (he ▸ List.mem_map_of_mem Prod.fst hp) (by simp)
    have hpon : ponDict xs.dropLast (xs.getLast hne).1
        ⟨(xs.getLast hne).2.respuesta, (xs.getLast hne).2.timestamp⟩ = xs := by
      rw [ponDict_fresh _ _ _ hfreshz]
      have : ((xs.getLast hne).1, ((xs.getLast hne).2 : EntradaCache)) = xs.getLast hne := rfl
      rw [show ((xs.getLast hne).1,
          (⟨(xs.getLast hne).2.respuesta, (xs.getLast hne).2.timestamp⟩ : EntradaCache)) =
          xs.getLast hne from rfl]
      exact hsplit
    show almacenarRespuesta cap xs.dropLast (xs.getLast hne).1
        (xs.getLast hne).2.respuesta (xs.getLast hne).2.timestamp = xs.tail
    unfold almacenarRespuesta
    rw [hpon, evictaExceso_cap_succ cap xs hlen]
    have hlt : ∀ p ∈ ys, y.2.timestamp < p.2.timestamp :=
      fun p hp => (List.pairwise_cons.mp hts).1 p hp
    simpa using quitarMasVieja_cons y ys hlt
  refine ⟨fun cache k resp ts => almacenar_length cap cache k resp ts, hfold, ?_⟩
  rw [hfold]
  intro p hp q hq
  simp only [hxs, List.head?_cons, Option.mem_def, Option.some.injEq] at hq
  subst hq
  simp only [hxs, List.tail_cons] at hp
  simp only [hxs, List.map_cons, List.nodup_cons] at hkeys
  intro he
  exact hkeys.1 (he ▸ List.mem_map_of_mem Prod.fst hp)

/-- Witness for the hypotheses of `claim_C3`: three stores at capacity two
leave the two newest entries, the oldest being evicted. -/
theorem claim_C3_witness :
    [("a", (⟨"ra", 1⟩ : EntradaCache)), ("b", ⟨"rb", 2⟩), ("c", ⟨"rc", 3⟩)].foldl
      (fun ch e => almacenarRespuesta 2 ch e.1 e.2.respuesta e.2.timestamp) [] =
      [("a", (⟨"ra", 1⟩ : EntradaCache)), ("b", ⟨"rb", 2⟩), ("c", ⟨"rc", 3⟩)].tail :=
  (claim_C3 2 [("a", ⟨"ra", 1⟩), ("b", ⟨"rb", 2⟩), ("c", ⟨"rc", 3⟩)]
    (by decide) (by decide) (by decide)).2.1

/-!
Claim about the embedding LRU cache (C10).
-/

theorem filtraClave_length {A : Type} (cache : List (String × A)) (k : String)
    (hnd : (cache.map Prod.fst).Nodup) (hk : k ∈ cache.map Prod.fst) :
    (cache.filter (fun p => !(p.1 == k))).length + 1 = cache.length := by
  induction cache with
  | nil => simp at hk
  | cons x xs ih =>
    simp only [List.map_cons, List.nodup_cons] at hnd
    by_cases hx : x.1 = k
    · have hall : xs.filter (fun p => !(p.1 == k)) = xs := by
        apply List.filter_eq_self.mpr
        intro p hp
        simp only [Bool.not_eq_true', beq_eq_false_iff_ne, ne_eq]
        intro he
        exact hnd.1 (hx ▸ he ▸ List.mem_map_of_mem Prod.fst hp)
      simp [List.filter_cons, hx, hall]
    · have hk2 : k ∈ xs.map Prod.fst := by
        rcases List.mem_map.mp hk with ⟨p, hp, hpk⟩
        rcases List.mem_cons.mp hp with rfl | hp2
        · exact absurd hpk hx
        · exact hpk ▸ List.mem_map_of_mem Prod.fst hp2
      have hih := ih hnd.2 hk2
      have hbx : (!(x.1 == k)) = true := by simpa using hx
      simp only [List.filter_cons, hbx, if_pos, List.length_cons]
      omega

/-- Claim C10: the LRU embedding cache is bounded — after any insertion it
holds at most `maxSize` entries; re-inserting an existing key into a
well-formed cache (unique keys, within bound) keeps the size and moves the
binding to the most-recent end; and an embedding request whose derived key
is already cached returns the stored vector, leaves the cache unchanged
and issues no external embedding call. -/
theorem claim_C10 {A : Type} (maxSize : Nat) (cache : List (String × A))
    (k : String) (v : A) (hash : String → String) (texto : String)
    (apiEmb vec : A) :
    (lruPon maxSize cache k v).length ≤ maxSize ∧
    ((cache.map Prod.fst).Nodup → k ∈ cache.map Prod.fst →
      cache.length ≤ maxSize →
      (lruPon maxSize cache k v).length = cache.length ∧
      (lruPon maxSize cache k v).getLast? = some (k, v)) ∧
    (cache.lookup (hash texto) = some vec →
      obtener_embedding hash cache texto apiEmb = (vec, cache, false)) := by
  refine ⟨?_, ?_, ?_⟩
  · unfold lruPon
    simp only [List.length_drop]
    omega
  · intro hnd hk hlen
    have hflen := filtraClave_length cache k hnd hk
    have hc1 : (cache.filter (fun p => !(p.1 == k)) ++ [(k, v)]).length =
        cache.length := by simp; omega
    have hdrop : (cache.filter (fun p => !(p.1 == k)) ++ [(k, v)]).length -
        maxSize = 0 := by omega
    constructor
    · unfold lruPon
      simp only [hdrop, List.drop_zero]
      exact hc1
    · unfold lruPon
      simp only [hdrop, List.drop_zero]
      simp
  · intro hfound
    unfold obtener_embedding
    simp [hfound]

/-- Witness for the hypotheses of `claim_C10`: re-inserting the key "b"
into a two-entry cache of bound 2000 keeps both entries and moves "b" to
the most-recent end. -/
theorem claim_C10_witness :
    (lruPon 2000 [("a", 1), ("b", 2)] "b" (9 : Nat)).length =
      ([("a", 1), ("b", 2)] : List (String × Nat)).length ∧
    (lruPon 2000 [("a", 1), ("b", 2)] "b" (9 : Nat)).getLast? = some ("b", 9) :=
  (claim_C10 2000 [("a", 1), ("b", 2)] "b" 9 id "x" 0 0).2.1
    (by decide) (by decide) (by decide)

/-!
Claim about the per-user message history (C9).
-/

/-- Claim C9, counterexample: the claim asserts that after every completed
turn the stored history holds at most `MAX_HISTORIAL_MENSAJES` messages; in
fact the count trim runs before the assistant reply is appended, so a turn
on a full window of fresh messages stores `MAX_HISTORIAL_MENSAJES + 1`
messages. -/
theorem claim_C9_counterexample :
    (historialTrasTurno (List.replicate 10 ⟨"user", "hola", 5000⟩)
      5000 "mensaje" "respuesta").length = MAX_HISTORIAL_MENSAJES + 1 := by decide

/-- Claim C9, amended: after every completed turn the stored per-user
history holds at most `MAX_HISTORIAL_MENSAJES + 1` messages (the window
filter and count trim run before the assistant reply is appended), and
every stored message's timestamp lies within the one-hour recency window
of the turn's start. -/
theorem claim_C9 (historial : List MensajeHist) (ahora : Int)
    (mensaje respuesta : String) :
    (historialTrasTurno historial ahora mensaje respuesta).length ≤
      MAX_HISTORIAL_MENSAJES + 1 ∧
    ∀ m ∈ historialTrasTurno historial ahora mensaje respuesta,
      ahora - 3600 < m.timestamp := by
  have hcuenta : ∀ l : List MensajeHist,
      (recortaCuenta l).length ≤ MAX_HISTORIAL_MENSAJES := by
    intro l
    unfold recortaCuenta
    split
    · simp only [List.length_drop]
      omega
    · omega
  have hsubset : ∀ l : List MensajeHist, ∀ m ∈ recortaCuenta l, m ∈ l := by
    intro l m hm
    unfold recortaCuenta at hm
    revert hm
    split
    · exact fun hm => List.drop_subset _ _ hm
    · exact fun hm => hm
  constructor
  · show (recorteHistorial historial ahora mensaje ++ _).length ≤ _
    have hrec : (recorteHistorial historial ahora mensaje).length ≤
        MAX_HISTORIAL_MENSAJES := hcuenta _
    simp only [List.length_append, List.length_cons, List.length_nil]
    omega
  · intro m hm
    rcases List.mem_append.mp hm with hm2 | hm2
    · unfold recorteHistorial at hm2
      have hmem : m ∈ (historial ++ [(⟨"user", mensaje, ahora⟩ : MensajeHist)]).filter
          (fun mm => decide (ahora - 3600 < mm.timestamp)) :=
        hsubset _ m hm2
      have := List.of_mem_filter hmem
      simpa using this
    · have hmm : m = ⟨"assistant", respuesta, ahora⟩ := by simpa using hm2
      subst hmm
      simp only
      omega

/-- Witness for the hypotheses of `claim_C9`: the assistant reply stored by
a turn on an empty history carries the turn's timestamp, inside the
window. -/
theorem claim_C9_witness :
    (5000 : Int) - 3600 <
      (⟨"assistant", "respuesta", 5000⟩ : MensajeHist).timestamp :=
  (claim_C9 [] 5000 "mensaje" "respuesta").2 ⟨"assistant", "respuesta", 5000⟩
    (by decide)

/-!
Claim about catalog immutability under annotation (C7).
-/

theorem anotar_campos (t : Instante) (c : Comercio) :
    (anotarEstado t c).id = c.id ∧ (anotarEstado t c).nombre = c.nombre ∧
    (anotarEstado t c).categoria = c.categoria ∧
    (anotarEstado t c).rubro = c.rubro ∧ (anotarEstado t c).tags = c.tags ∧
    (anotarEstado t c).zona = c.zona ∧
    (anotarEstado t c).horarios = c.horarios := by
  unfold anotarEstado
  split
  · exact ⟨rfl, rfl, rfl, rfl, rfl, rfl, rfl⟩
  · split <;> exact ⟨rfl, rfl, rfl, rfl, rfl, rfl, rfl⟩

/-- Claim C7, counterexample: the claim asserts that annotating returned
entries leaves the in-memory catalog unchanged; in fact
`inyectar_estado_horario` writes `estado_actual` into the returned dicts,
which on the local-fallback path are the catalog entries themselves, so
after a query for "pizza" the catalog's pizzeria entry carries the
annotation and the catalog differs from its pre-query state. -/
theorem claim_C7_counterexample :
    catalogoTrasConsulta
      [⟨0, "Pizzeria Don Jose", "Pizzería", "", "", "City Bell", "24hs", none⟩]
      "pizza" none 6 ⟨2, 12, 0⟩ ≠
      [⟨0, "Pizzeria Don Jose", "Pizzería", "", "", "City Bell", "24hs", none⟩] := by
  decide

/-- Claim C7, amended: annotation mutates the returned entries in place, so
on the local-fallback path the in-memory catalog is changed at exactly the
returned entries; the catalog keeps its length, every entry not returned
keeps its value, and an annotated entry differs at most in its
`estado_actual` field. -/
theorem claim_C7 (catalogo : List Comercio) (consulta : String)
    (zona : Option String) (top_k : Nat) (t : Instante) :
    (catalogoTrasConsulta catalogo consulta zona top_k t).length =
      catalogo.length ∧
    (∀ (n : Nat) (h : n < catalogo.length)
      (h2 : n < (catalogoTrasConsulta catalogo consulta zona top_k t).length),
      ¬ ((filtrar_json_local catalogo consulta zona top_k).map
          (fun c => c.id)).contains (catalogo.get ⟨n, h⟩).id →
      (catalogoTrasConsulta catalogo consulta zona top_k t).get ⟨n, h2⟩ =
        catalogo.get ⟨n, h⟩) ∧
    ∀ c : Comercio, (anotarEstado t c).id = c.id ∧
      (anotarEstado t c).nombre = c.nombre ∧
      (anotarEstado t c).categoria = c.categoria ∧
      (anotarEstado t c).rubro = c.rubro ∧ (anotarEstado t c).tags = c.tags ∧
      (anotarEstado t c).zona = c.zona ∧
      (anotarEstado t c).horarios = c.horarios := by
  refine ⟨by simp [catalogoTrasConsulta], ?_, fun c => anotar_campos t c⟩
  intro n h h2 hno
  unfold catalogoTrasConsulta
  simp only [List.get_eq_getElem, List.getElem_map]
  rw [if_neg]
  intro hcont
  exact hno (by simpa [catalogoTrasConsulta] using hcont)

/-- Witness for the hypotheses of `claim_C7`: a catalog whose only entry
does not match the query keeps that entry unchanged after the query. -/
theorem claim_C7_witness :
    (catalogoTrasConsulta
      [⟨0, "Ferreteria El Tornillo", "Ferretería", "", "", "Gonnet", "8-18", none⟩]
      "sushi" none 6 ⟨2, 12, 0⟩).get ⟨0, by decide⟩ =
    ([⟨0, "Ferreteria El Tornillo", "Ferretería", "", "", "Gonnet", "8-18",
      none⟩] : List Comercio).get ⟨0, by decide⟩ :=
  (claim_C7 [⟨0, "Ferreteria El Tornillo", "Ferretería", "", "", "Gonnet",
    "8-18", none⟩] "sushi" none 6 ⟨2, 12, 0⟩).2.1 0 (by decide) (by decide)
    (by decide)

/-!
Claim about the synonym expander (C6).  The supporting lemmas establish
that tokenisation distributes over appending a space-separated text and
commutes with the character-level normalisation maps.
-/

theorem esEspacio_minuscula (c : Char) : esEspacio (minusculaChar c) = esEspacio c := by
  unfold minusculaChar
  split
  all_goals rfl

theorem esEspacio_quitarAcento (c : Char) :
    esEspacio (quitarAcentoChar c) = esEspacio c := by
  unfold quitarAcentoChar
  split
  all_goals rfl

theorem palabrasAux_espacios (sp : List Char)
    (hsp : ∀ c ∈ sp, esEspacio c = true) :
    ∀ acc, palabrasAux acc sp = if acc.isEmpty then [] else [acc.reverse] := by
  induction sp with
  | nil => intro acc; rfl
  | cons s sp ih =>
    intro acc
    have hs : esEspacio s = true := hsp s (by simp)
    have ihe := ih (fun c hc => hsp c (by simp [hc])) []
    by_cases ha : acc.isEmpty
    · simp [palabrasAux, hs, ha, ihe]
    · simp [palabrasAux, hs, ha, ihe]

theorem palabrasAux_append_esp (s : Char) (hs : esEspacio s = true)
    (v : List Char) :
    ∀ (u acc : List Char),
    palabrasAux acc (u ++ s :: v) = palabrasAux acc u ++ palabrasL v := by
  intro u
  induction u with
  | nil =>
    intro acc
    by_cases ha : acc.isEmpty
    · simp [palabrasAux, hs, ha, palabrasL]
    · simp [palabrasAux, hs, ha, palabrasL]
  | cons c u ih =>
    intro acc
    by_cases hc : esEspacio c
    · by_cases ha : acc.isEmpty
      · simp [palabrasAux, hc, ha, ih]
      · simp [palabrasAux, hc, ha, ih]
    · simp [palabrasAux, hc, ih]

theorem palabrasAux_append_espacios (sp : List Char)
    (hsp : ∀ c ∈ sp, esEspacio c = true) :
    ∀ (u acc : List Char), palabrasAux acc (u ++ sp) = palabrasAux acc u := by
  intro u
  induction u with
  | nil =>
    intro acc
    rw [List.nil_append]
    exact palabrasAux_espacios sp hsp acc
  | cons c u ih =>
    intro acc
    by_cases hc : esEspacio c
    · by_cases ha : acc.isEmpty
      · simp [palabrasAux, hc, ha, ih]
      · simp [palabrasAux, hc, ha, ih]
    · simp [palabrasAux, hc, ih]

theorem palabrasAux_map (f : Char → Char)
    (hf : ∀ c, esEspacio (f c) = esEspacio c) :
    ∀ (l acc : List Char),
    palabrasAux (acc.map f) (l.map f) = (palabrasAux acc l).map (List.map f) := by
  intro l
  induction l with
  | nil =>
    intro acc
    by_cases ha : acc.isEmpty
    · have : acc = [] := by simpa [List.isEmpty_iff] using ha
      subst this
      simp [palabrasAux]
    · have hmap : (acc.map f).isEmpty = false := by
        cases acc with
        | nil => simp at ha
        | cons a as => simp
      simp only [List.map_nil, palabrasAux, hmap, Bool.false_eq_true,
        if_neg, ite_false]
      have : acc.isEmpty = false := by
        cases acc with
        | nil => simp at ha
        | cons a as => simp
      simp [this, List.map_reverse]
  | cons c cs ih =>
    intro acc
    by_cases hc : esEspacio c
    · have hfc : esEspacio (f c) = true := by rw [hf]; exact hc
      by_cases ha : acc.isEmpty
      · have : acc = [] := by simpa [List.isEmpty_iff] using ha
        subst this
        simpa [palabrasAux, hfc, hc] using ih []
      · have h1 : acc.isEmpty = false := by
          cases acc with
          | nil => simp at ha
          | cons a as => simp
        have h2 : (acc.map f).isEmpty = false := by
          cases acc with
          | nil => simp at ha
          | cons a as => simp
        have ihe := ih []
        simp only [List.map_cons, palabrasAux, hfc, hc, h1, h2, if_true,
          Bool.false_eq_true, if_neg, ite_false, List.map_reverse]
        have ihe2 : palabrasAux [] (List.map f cs) =
            List.map (List.map f) (palabrasAux [] cs) := by simpa using ihe
        rw [ihe2]
    · have hfc : esEspacio (f c) = false := by rw [hf]; simpa using hc
      have := ih (c :: acc)
      simpa [palabrasAux, hfc, hc] using this

theorem palabrasL_dropWhile (l : List Char) :
    palabrasL (l.dropWhile esEspacio) = palabrasL l := by
  induction l with
  | nil => rfl
  | cons c cs ih =>
    by_cases hc : esEspacio c
    · rw [List.dropWhile_cons_of_pos hc]
      rw [ih]
      simp [palabrasL, palabrasAux, hc]
    · rw [List.dropWhile_cons_of_neg (by simpa using hc)]

theorem palabrasL_recorta (l : List Char) : palabrasL (recortaL l) = palabrasL l := by
  unfold recortaL
  set u := l.dropWhile esEspacio with hu
  have hsplit : u = (u.reverse.dropWhile esEspacio).reverse ++
      (u.reverse.takeWhile esEspacio).reverse := by
    have : u.reverse = u.reverse.takeWhile esEspacio ++ u.reverse.dropWhile esEspacio := by
      rw [List.takeWhile_append_dropWhile]
    calc u = u.reverse.reverse := by rw [List.reverse_reverse]
      _ = (u.reverse.takeWhile esEspacio ++ u.reverse.dropWhile esEspacio).reverse := by
          rw [← this]
      _ = (u.reverse.dropWhile esEspacio).reverse ++
          (u.reverse.takeWhile esEspacio).reverse := by rw [List.reverse_append]
  have hsp : ∀ c ∈ (u.reverse.takeWhile esEspacio).reverse, esEspacio c = true := by
    intro c hc
    exact List.mem_takeWhile_imp (List.mem_reverse.mp hc)
  calc palabrasL (u.reverse.dropWhile esEspacio).reverse
      = palabrasAux [] ((u.reverse.dropWhile esEspacio).reverse ++
          (u.reverse.takeWhile esEspacio).reverse) := by
        rw [palabrasAux_append_espacios _ hsp]
        rfl
    _ = palabrasL u := by rw [← hsplit]; rfl
    _ = palabrasL l := palabrasL_dropWhile l

theorem palabrasL_norm (l : List Char) :
    palabrasL (normalizarL l) =
      ((palabrasL l).map (List.map minusculaChar)).map (List.map quitarAcentoChar) := by
  unfold normalizarL
  calc palabrasL ((recortaL (l.map minusculaChar)).map quitarAcentoChar)
      = (palabrasL (recortaL (l.map minusculaChar))).map (List.map quitarAcentoChar) := by
        have := palabrasAux_map quitarAcentoChar esEspacio_quitarAcento
          (recortaL (l.map minusculaChar)) []
        simpa [palabrasL] using this
    _ = (palabrasL (l.map minusculaChar)).map (List.map quitarAcentoChar) := by
        rw [palabrasL_recorta]
    _ = ((palabrasL l).map (List.map minusculaChar)).map (List.map quitarAcentoChar) := by
        have := palabrasAux_map minusculaChar esEspacio_minuscula l []
        simp only [palabrasL]
        rw [← this]
        rfl

theorem tokensDe_append (a b : String) :
    tokensDe (a ++ " " ++ b) = tokensDe a ++ tokensDe b := by
  unfold tokensDe
  have hdata : (a ++ " " ++ b).toList = a.toList ++ ' ' :: b.toList := by
    show (a ++ " " ++ b).data = a.data ++ ' ' :: b.data
    rw [String.data_append, String.data_append]
    have hsp : (" " : String).data = [' '] := rfl
    rw [hsp, List.append_assoc]
    rfl
  rw [hdata]
  rw [palabrasL_norm, palabrasL_norm, palabrasL_norm]
  have hmin : (a.toList ++ ' ' :: b.toList).map minusculaChar =
      a.toList.map minusculaChar ++ ' ' :: b.toList.map minusculaChar := by
    simp
    rfl
  have happ : palabrasL (a.toList ++ ' ' :: b.toList) =
      palabrasL a.toList ++ palabrasL b.toList := by
    show palabrasAux [] (a.toList ++ ' ' :: b.toList) = _
    rw [palabrasAux_append_esp ' ' rfl b.toList a.toList []]
    rfl
  rw [happ]
  simp

theorem tokensDe_join_mem (t : String) :
    ∀ xs : List String, t ∈ tokensDe (join_espacio xs) → ∃ e ∈ xs, t ∈ tokensDe e := by
  intro xs
  induction xs with
  | nil =>
    intro h
    simp [join_espacio, tokensDe, normalizarL, recortaL, palabrasL, palabrasAux] at h
  | cons x xs ih =>
    intro h
    cases xs with
    | nil =>
      exact ⟨x, by simp, by simpa [join_espacio] using h⟩
    | cons y ys =>
      have hj : join_espacio (x :: y :: ys) = x ++ " " ++ join_espacio (y :: ys) := rfl
      rw [hj, tokensDe_append] at h
      rcases List.mem_append.mp h with h2 | h2
      · exact ⟨x, by simp, h2⟩
      · obtain ⟨e, he, hte⟩ := ih h2
        exact ⟨e, by simp [he], hte⟩

theorem lookup_mem {A B : Type} [BEq A] (l : List (A × B)) (k : A) (v : B)
    (h : l.lookup k = some v) : ∃ p ∈ l, p.2 = v := by
  induction l with
  | nil => simp [List.lookup] at h
  | cons x xs ih =>
    rw [List.lookup] at h
    by_cases hx : (k == x.1) = true
    · rw [hx] at h
      exact ⟨x, by simp, by simpa using h⟩
    · rw [Bool.not_eq_true] at hx
      rw [hx] at h
      obtain ⟨p, hp, hpv⟩ := ih h
      exact ⟨p, by simp [hp], hpv⟩

theorem agregaUnico_mem (acc : List String) (x e : String)
    (h : e ∈ agregaUnico acc x) : e ∈ acc ∨ e = x := by
  unfold agregaUnico at h
  by_cases hc : acc.contains x
  · rw [if_pos hc] at h
    exact Or.inl h
  · rw [if_neg hc] at h
    rcases List.mem_append.mp h with h2 | h2
    · exact Or.inl h2
    · exact Or.inr (by simpa using h2)

theorem fold_agrega_origen (P : String → Prop) (ss : List String) :
    ∀ acc : List String, (∀ x ∈ acc, P x) → (∀ v ∈ ss, P (normalizar_texto v)) →
    ∀ e ∈ ss.foldl (fun a s => agregaUnico a (normalizar_texto s)) acc, P e := by
  induction ss with
  | nil => intro acc hacc _ e he; exact hacc e he
  | cons s ss ih =>
    intro acc hacc hss e he
    refine ih (agregaUnico acc (normalizar_texto s)) ?_
      (fun v hv => hss v (by simp [hv])) e he
    intro x hx
    rcases agregaUnico_mem acc (normalizar_texto s) x hx with h2 | h2
    · exact hacc x h2
    · exact h2 ▸ hss s (by simp)

theorem extrasDe_origen (q e : String) (he : e ∈ extrasDe q) :
    ∃ par ∈ SINONIMOS, ∃ v ∈ par.2, e = normalizar_texto v := by
  unfold extrasDe at he
  revert he
  suffices h : ∀ (toks : List String) (acc : List String),
      (∀ x ∈ acc, ∃ par ∈ SINONIMOS, ∃ v ∈ par.2, x = normalizar_texto v) →
      ∀ x ∈ toks.foldl (fun acc p =>
        match SINONIMOS.lookup p with
        | some ss => ss.foldl (fun a s => agregaUnico a (normalizar_texto s)) acc
        | none => acc) acc,
      ∃ par ∈ SINONIMOS, ∃ v ∈ par.2, x = normalizar_texto v by
    intro he
    exact h (tokensDe q) [] (by simp) e he
  intro toks
  induction toks with
  | nil => intro acc hacc x hx; exact hacc x hx
  | cons p toks ih =>
    intro acc hacc x hx
    simp only [List.foldl_cons] at hx
    cases hl : SINONIMOS.lookup p with
    | none =>
      rw [hl] at hx
      exact ih acc hacc x hx
    | some ss =>
      rw [hl] at hx
      refine ih _ ?_ x hx
      intro y hy
      obtain ⟨par, hpar, hv⟩ := lookup_mem SINONIMOS p ss hl
      exact fold_agrega_origen
        (fun z => ∃ par ∈ SINONIMOS, ∃ v ∈ par.2, z = normalizar_texto v) ss acc hacc
        (fun v hvv => ⟨par, hpar, v, hv ▸ hvv, rfl⟩) y hy

/-- Claim C6, counterexample: the claim asserts the token set is a fixed
point after two expansion passes; in fact the chain
alfajor → alfajores → chocolate → cafeteria needs three passes: the third
expansion of "alfajor" introduces the token "cafeteria", which the second
does not contain. -/
theorem claim_C6_counterexample :
    "cafeteria" ∈ tokensDe (expandir_consulta (expandir_consulta
      (expandir_consulta "alfajor"))) ∧
    "cafeteria" ∉ tokensDe (expandir_consulta (expandir_consulta "alfajor")) := by
  constructor
  · decide
  · decide

/-- Claim C6, amended: expansion never removes tokens (the token set of the
query is contained in that of the expanded query) and every added token
comes from a normalised synonym-table value, so repeated expansion grows
the token set only by canonical terms; but the token set need not be stable
after two passes — for "alfajor" the third pass introduces "cafeteria" —
and on that input a fourth pass adds nothing new. -/
theorem claim_C6 :
    (∀ q t : String, t ∈ tokensDe q → t ∈ tokensDe (expandir_consulta q)) ∧
    (∀ q t : String, t ∈ tokensDe (expandir_consulta q) →
      t ∈ tokensDe q ∨
      ∃ par ∈ SINONIMOS, ∃ v ∈ par.2, t ∈ tokensDe (normalizar_texto v)) ∧
    "cafeteria" ∉ tokensDe (expandir_consulta (expandir_consulta "alfajor")) ∧
    "cafeteria" ∈ tokensDe (expandir_consulta (expandir_consulta
      (expandir_consulta "alfajor"))) ∧
    (tokensDe (expandir_consulta (expandir_consulta (expandir_consulta
        (expandir_consulta "alfajor"))))).all
      (fun t => (tokensDe (expandir_consulta (expandir_consulta
        (expandir_consulta "alfajor")))).contains t) = true := by
  refine ⟨?_, ?_, by decide, by decide, by decide⟩
  · intro q t ht
    unfold expandir_consulta
    by_cases he : (extrasDe q).isEmpty
    · rw [if_pos he]
      exact ht
    · rw [if_neg he]
      rw [tokensDe_append]
      exact List.mem_append.mpr (Or.inl ht)
  · intro q t ht
    unfold expandir_consulta at ht
    by_cases he : (extrasDe q).isEmpty
    · rw [if_pos he] at ht
      exact Or.inl ht
    · rw [if_neg he, tokensDe_append] at ht
      rcases List.mem_append.mp ht with h2 | h2
      · exact Or.inl h2
      · obtain ⟨e, hee, hte⟩ := tokensDe_join_mem t (extrasDe q) h2
        obtain ⟨par, hpar, v, hv, hev⟩ := extrasDe_origen q e hee
        exact Or.inr ⟨par, hpar, v, hv, hev ▸ hte⟩

/-- Witness for the hypotheses of `claim_C6`: the token "alfajor" of the
query survives one expansion pass. -/
theorem claim_C6_witness :
    "alfajor" ∈ tokensDe (expandir_consulta "alfajor") :=
  claim_C6.1 "alfajor" "alfajor" (by decide)

/-!
Claim about the local retrieval filter (C5).  The supporting lemmas show
that the stable insertion sort modelling Python's
`sort(key=lambda x: x[0], reverse=True)` is a permutation, sorts scores
descending, and keeps catalog order between equal scores.
-/

theorem insertaDesc_perm (x : Nat × Comercio) (l : List (Nat × Comercio)) :
    (insertaDesc x l).Perm (x :: l) := by
  induction l with
  | nil => exact List.Perm.refl _
  | cons y ys ih =>
    unfold insertaDesc
    by_cases h : y.1 ≤ x.1
    · rw [if_pos h]
    · rw [if_neg h]
      exact (ih.cons y).trans (List.Perm.swap x y ys)

theorem ordenaDesc_perm (l : List (Nat × Comercio)) : (ordenaDesc l).Perm l := by
  induction l with
  | nil => exact List.Perm.refl _
  | cons x xs ih => exact (insertaDesc_perm x (ordenaDesc xs)).trans (ih.cons x)

theorem mem_insertaDesc (y x : Nat × Comercio) (l : List (Nat × Comercio)) :
    y ∈ insertaDesc x l ↔ y = x ∨ y ∈ l := by
  rw [(insertaDesc_perm x l).mem_iff]
  simp

theorem insertaDesc_sorted (x : Nat × Comercio) :
    ∀ l : List (Nat × Comercio), l.Pairwise (fun a b => b.1 ≤ a.1) →
    (insertaDesc x l).Pairwise (fun a b => b.1 ≤ a.1) := by
  intro l
  induction l with
  | nil => intro _; exact List.pairwise_singleton ..
  | cons y ys ih =>
    intro hp
    rcases List.pairwise_cons.mp hp with ⟨hy, hys⟩
    unfold insertaDesc
    by_cases h : y.1 ≤ x.1
    · rw [if_pos h]
      refine List.pairwise_cons.mpr ⟨?_, hp⟩
      intro z hz
      rcases List.mem_cons.mp hz with rfl | hz2
      · exact h
      · exact le_trans (hy z hz2) h
    · rw [if_neg h]
      refine List.pairwise_cons.mpr ⟨?_, ih hys⟩
      intro z hz
      rcases (mem_insertaDesc z x ys).mp hz with rfl | hz2
      · omega
      · exact hy z hz2

theorem ordenaDesc_sorted (l : List (Nat × Comercio)) :
    (ordenaDesc l).Pairwise (fun a b => b.1 ≤ a.1) := by
  induction l with
  | nil => exact List.Pairwise.nil
  | cons x xs ih => exact insertaDesc_sorted x _ ih

theorem insertaDesc_estable (R : Comercio → Comercio → Prop) (x : Nat × Comercio) :
    ∀ l : List (Nat × Comercio),
    l.Pairwise (fun a b => b.1 ≤ a.1) →
    l.Pairwise (fun a b => b.1 < a.1 ∨ (a.1 = b.1 ∧ R a.2 b.2)) →
    (∀ y ∈ l, R x.2 y.2) →
    (insertaDesc x l).Pairwise
      (fun a b => b.1 < a.1 ∨ (a.1 = b.1 ∧ R a.2 b.2)) := by
  intro l
  induction l with
  | nil => intro _ _ _; exact List.pairwise_singleton ..
  | cons y ys ih =>
    intro hsort hQ hR
    rcases List.pairwise_cons.mp hsort with ⟨hy, hys⟩
    rcases List.pairwise_cons.mp hQ with ⟨hQy, hQys⟩
    unfold insertaDesc
    by_cases h : y.1 ≤ x.1
    · rw [if_pos h]
      refine List.pairwise_cons.mpr ⟨?_, hQ⟩
      intro z hz
      have hz1 : z.1 ≤ x.1 := by
        rcases List.mem_cons.mp hz with rfl | hz2
        · exact h
        · exact le_trans (hy z hz2) h
      by_cases he : z.1 < x.1
      · exact Or.inl he
      · exact Or.inr ⟨by omega, hR z hz⟩
    · rw [if_neg h]
      refine List.pairwise_cons.mpr
        ⟨?_, ih hys hQys (fun z hz => hR z (by simp [hz]))⟩
      intro z hz
      rcases (mem_insertaDesc z x ys).mp hz with rfl | hz2
      · exact Or.inl (by omega)
      · exact hQy z hz2

theorem ordenaDesc_estable (R : Comercio → Comercio → Prop) :
    ∀ l : List (Nat × Comercio), l.Pairwise (fun a b => R a.2 b.2) →
    (ordenaDesc l).Pairwise
      (fun a b => b.1 < a.1 ∨ (a.1 = b.1 ∧ R a.2 b.2)) := by
  intro l
  induction l with
  | nil => intro _; exact List.Pairwise.nil
  | cons x xs ih =>
    intro hp
    rcases List.pairwise_cons.mp hp with ⟨hx, hxs⟩
    refine insertaDesc_estable R x (ordenaDesc xs) (ordenaDesc_sorted xs)
      (ih hxs) ?_
    intro y hy
    exact hx y ((ordenaDesc_perm xs).mem_iff.mp hy)

theorem puntaje_vacio (zona : Option String) (c : Comercio)
    (hz : zonaVacia zona = true) : puntajeComercio [] zona c = 0 := by
  have hcampos : puntajeCampos [] c = 0 := by
    simp [puntajeCampos, _PESO_CAMPO]
  have hbono : bonoZona zona c = 0 := by
    cases zona with
    | none => rfl
    | some z =>
      have : z.isEmpty = true := by simpa [zonaVacia] using hz
      simp [bonoZona, this]
  simp [puntajeComercio, hcampos, hbono]

/-- Claim C5: the Local Retrieval Filter returns exactly catalog entries
with positive score, sorted by descending score with ties broken by catalog
order, truncated to `top_k`; it returns every positive-scoring entry when
they fit into `top_k`; it returns the empty list, never an error, when no
entry scores above zero; and an entry whose name contains a query token
outranks an entry matching the same token only in its tags field, for
equal zone bonus (scores in half-point units). -/
theorem claim_C5 (catalogo : List Comercio) (consulta : String)
    (zona : Option String) (top_k : Nat)
    (hids : catalogo.Pairwise (fun a b => a.id < b.id)) :
    (∀ c ∈ filtrar_json_local catalogo consulta zona top_k,
      c ∈ catalogo ∧ 0 < puntajeComercio (palabrasConsulta consulta) zona c) ∧
    ((catalogo.filter (fun c =>
        decide (0 < puntajeComercio (palabrasConsulta consulta) zona c))).length
        ≤ top_k →
      ∀ c ∈ catalogo, 0 < puntajeComercio (palabrasConsulta consulta) zona c →
        c ∈ filtrar_json_local catalogo consulta zona top_k) ∧
    (filtrar_json_local catalogo consulta zona top_k).length =
      min top_k (catalogo.filter (fun c =>
        decide (0 < puntajeComercio (palabrasConsulta consulta) zona c))).length ∧
    (filtrar_json_local catalogo consulta zona top_k).Pairwise
      (fun a b => puntajeComercio (palabrasConsulta consulta) zona b <
          puntajeComercio (palabrasConsulta consulta) zona a ∨
        (puntajeComercio (palabrasConsulta consulta) zona a =
          puntajeComercio (palabrasConsulta consulta) zona b ∧ a.id < b.id)) ∧
    ((∀ c ∈ catalogo, puntajeComercio (palabrasConsulta consulta) zona c = 0) →
      filtrar_json_local catalogo consulta zona top_k = []) ∧
    filtrar_json_local
      [⟨0, "Gomeria El Tuerto", "", "", "", "", "", none⟩,
       ⟨1, "Taller Lopez", "", "", "gomerias ruedas", "", "", none⟩]
      "gomeria" none 6 =
      [⟨0, "Gomeria El Tuerto", "", "", "", "", "", none⟩,
       ⟨1, "Taller Lopez", "", "", "gomerias ruedas", "", "", none⟩] ∧
    puntajeComercio (palabrasConsulta "gomeria") none
        ⟨1, "Taller Lopez", "", "", "gomerias ruedas", "", "", none⟩ <
      puntajeComercio (palabrasConsulta "gomeria") none
        ⟨0, "Gomeria El Tuerto", "", "", "", "", "", none⟩ := by
  by_cases hbr : ((palabrasConsulta consulta).isEmpty && zonaVacia zona) = true
  · have hres : filtrar_json_local catalogo consulta zona top_k = [] := by
      simp only [filtrar_json_local]
      rw [if_pos hbr]
    have hband : (palabrasConsulta consulta).isEmpty = true ∧
        zonaVacia zona = true := by simpa using hbr
    rcases hband with ⟨hpal, hz⟩
    have hpal2 : palabrasConsulta consulta = [] := by
      simpa [List.isEmpty_iff] using hpal
    have hzero : ∀ c ∈ catalogo,
        puntajeComercio (palabrasConsulta consulta) zona c = 0 := by
      intro c _
      rw [hpal2]
      exact puntaje_vacio zona c hz
    have hfil : catalogo.filter (fun c =>
        decide (0 < puntajeComercio (palabrasConsulta consulta) zona c)) = [] := by
      apply List.filter_eq_nil_iff.mpr
      intro c hc
      simp [hzero c hc]
    refine ⟨?_, ?_, ?_, ?_, fun _ => hres, by decide, by decide⟩
    · intro c hc
      rw [hres] at hc
      simp at hc
    · intro _ c hc hpos
      rw [hzero c hc] at hpos
      simp at hpos
    · rw [hres, hfil]
      simp
    · rw [hres]
      exact List.Pairwise.nil
  · have hres : filtrar_json_local catalogo consulta zona top_k =
        ((ordenaDesc ((catalogo.filter (fun c =>
            decide (0 < puntajeComercio (palabrasConsulta consulta) zona c))).map
          (fun c => (puntajeComercio (palabrasConsulta consulta) zona c, c)))).take
            top_k).map (fun par => par.2) := by
      simp only [filtrar_json_local]
      rw [if_neg hbr]
    set pal := palabrasConsulta consulta with hpal
    set scored := (catalogo.filter (fun c =>
        decide (0 < puntajeComercio pal zona c))).map
      (fun c => (puntajeComercio pal zona c, c)) with hscored
    have hmem_scored : ∀ p : Nat × Comercio, p ∈ scored ↔
        p.2 ∈ catalogo ∧ 0 < puntajeComercio pal zona p.2 ∧
          p.1 = puntajeComercio pal zona p.2 := by
      intro p
      rw [hscored]
      constructor
      · intro hp
        obtain ⟨c, hc, hcp⟩ := List.mem_map.mp hp
        obtain ⟨hc2, hc3⟩ := List.mem_filter.mp hc
        cases hcp
        exact ⟨hc2, by simpa using hc3, rfl⟩
      · rintro ⟨h1, h2, h3⟩
        apply List.mem_map.mpr
        refine ⟨p.2, List.mem_filter.mpr ⟨h1, by simpa using h2⟩, ?_⟩
        obtain ⟨a, b⟩ := p
        simp only at h3
        simp [h3]
    have hscored_len : scored.length = (catalogo.filter (fun c =>
        decide (0 < puntajeComercio pal zona c))).length := by
      rw [hscored]; simp
    have hord_len : (ordenaDesc scored).length = scored.length :=
      (ordenaDesc_perm scored).length_eq
    have hmem_take : ∀ p : Nat × Comercio,
        p ∈ (ordenaDesc scored).take top_k → p ∈ scored := by
      intro p hp
      exact (ordenaDesc_perm scored).mem_iff.mp
        ((List.take_sublist _ _).mem hp)
    refine ⟨?_, ?_, ?_, ?_, ?_, by decide, by decide⟩
    · intro c hc
      rw [hres] at hc
      obtain ⟨p, hp, hpc⟩ := List.mem_map.mp hc
      have hp2 := (hmem_scored p).mp (hmem_take p hp)
      exact hpc ▸ ⟨hp2.1, hp2.2.1⟩
    · intro hlen c hc hpos
      rw [hres]
      have htk : (ordenaDesc scored).take top_k = ordenaDesc scored :=
        List.take_of_length_le (by omega)
      rw [htk]
      apply List.mem_map.mpr
      refine ⟨(puntajeComercio pal zona c, c), ?_, rfl⟩
      exact (ordenaDesc_perm scored).mem_iff.mpr
        ((hmem_scored _).mpr ⟨hc, hpos, rfl⟩)
    · rw [hres]
      simp only [List.length_map, List.length_take]
      rw [hord_len, hscored_len]
    · rw [hres]
      apply List.pairwise_map.mpr
      have hfilpw : (catalogo.filter (fun c =>
          decide (0 < puntajeComercio pal zona c))).Pairwise
          (fun a b => a.id < b.id) :=
        hids.sublist (List.filter_sublist catalogo)
      have hsc : scored.Pairwise (fun p q => p.2.id < q.2.id) := by
        rw [hscored]
        exact List.pairwise_map.mpr hfilpw
      have hord := ordenaDesc_estable (fun a b => a.id < b.id) scored hsc
      have htake := hord.sublist (List.take_sublist top_k (ordenaDesc scored))
      refine htake.imp_of_mem ?_
      intro p q hp hq hQ
      have hp2 := (hmem_scored p).mp (hmem_take p hp)
      have hq2 := (hmem_scored q).mp (hmem_take q hq)
      rcases hQ with hlt | ⟨heq, hid⟩
      · exact Or.inl (hp2.2.2 ▸ hq2.2.2 ▸ hlt)
      · exact Or.inr ⟨hp2.2.2 ▸ hq2.2.2 ▸ heq, hid⟩
    · intro hzero
      have hfil : catalogo.filter (fun c =>
          decide (0 < puntajeComercio pal zona c)) = [] := by
        apply List.filter_eq_nil_iff.mpr
        intro c hc
        simp [hzero c hc]
      rw [hres, hscored, hfil]
      simp [ordenaDesc]

/-- Witness for the hypotheses of `claim_C5`: on the two-entry catalog and
the query "gomeria" the filter returns as many entries as score
positively. -/
theorem claim_C5_witness :
    (filtrar_json_local
      [⟨0, "Gomeria El Tuerto", "", "", "", "", "", none⟩,
       ⟨1, "Taller Lopez", "", "", "gomerias ruedas", "", "", none⟩]
      "gomeria" none 6).length =
      min 6 ([(⟨0, "Gomeria El Tuerto", "", "", "", "", "", none⟩ : Comercio),
       ⟨1, "Taller Lopez", "", "", "gomerias ruedas", "", "", none⟩].filter
        (fun c => decide (0 < puntajeComercio (palabrasConsulta "gomeria")
          none c))).length :=
  (claim_C5 [⟨0, "Gomeria El Tuerto", "", "", "", "", "", none⟩,
    ⟨1, "Taller Lopez", "", "", "gomerias ruedas", "", "", none⟩]
    "gomeria" none 6 (by decide)).2.2.1

end Vecinito

